import Mathlib

/-!
# Verification of the agent-sandbox profile compiler

A shallow embedding of `src/agent_sandbox/generator.py` and
`src/agent_sandbox/cli.py`.  Both scripts assemble a Seatbelt rule document:
an ordered sequence of `(allow|deny <operations> <patterns>)` directives that
the external engine evaluates in declaration order, later matching directives
winning over earlier ones (the evaluation model the design relies on).

Paths are modelled as `List Char` (the literal path text the engine matches
on).  The document is modelled as the ordered list of its directives; comment
lines, the `(version 1)` header and the top-level `(allow default)`
declaration carry no match semantics — the default-allow is the initial value
of the evaluation fold.

The only regular-expression shapes the two scripts emit are concatenations of
literal text, `.*`, and `[^/]*`; the regex model below covers exactly these.
-/

namespace AgentSandbox

/-- Shorthand: the character list of a string literal. -/
def cs (s : String) : List Char := s.data

/-- Directive action: `allow` or `deny`. -/
inductive Action where
  | allow
  | deny
deriving DecidableEq, Repr

/-- File operations used by the two scripts: `file-read*`, `file-write*`,
`file-ioctl`. -/
inductive Op where
  | read
  | write
  | ioctl
deriving DecidableEq, Repr

/-- A segment of an emitted regular expression: literal text, `.*`, or
`[^/]*`.  Every regex the scripts emit is anchored at both ends (the
generator writes `#"...$"` forms over full paths). -/
inductive RSeg where
  | lit (s : List Char)
  | any
  | anyNoSlash
deriving DecidableEq, Repr

/-- A pattern clause: `(literal p)`, `(subpath p)`, or `(regex #"...")`. -/
inductive Pat where
  | literal (p : List Char)
  | subpath (p : List Char)
  | regex (r : List RSeg)
deriving DecidableEq, Repr

/-- One `(allow|deny ops pats)` directive. -/
structure Directive where
  action : Action
  ops : List Op
  pats : List Pat
deriving DecidableEq, Repr

/-- The suffixes of `p` reachable by consuming only non-`/` characters:
the candidate remainders after `[^/]*`. -/
def nsTails : List Char → List (List Char)
  | [] => [[]]
  | c :: t => (c :: t) :: (if c = '/' then [] else nsTails t)

/-- Full-path regex matching for the emitted shapes: the whole path must be
consumed (the scripts' regexes are `$`-anchored and home-prefixed).
`.*` may leave any suffix of the path to the rest of the pattern; `[^/]*`
any suffix reachable without crossing a `/`. -/
def rmatch : List RSeg → List Char → Bool
  | [], p => p.isEmpty
  | .lit s :: rs, p => s.isPrefixOf p && rmatch rs (p.drop s.length)
  | .any :: rs, p => p.tails.any (rmatch rs)
  | .anyNoSlash :: rs, p => (nsTails p).any (rmatch rs)

/-- Seatbelt `(subpath d)` semantics: the path is the directory itself or
lies beneath it; `(subpath "/")` covers every absolute path. -/
def subpathMatch (dir path : List Char) : Bool :=
  decide (path = dir) || (dir ++ ['/']).isPrefixOf path ||
    (decide (dir = ['/']) && ['/'].isPrefixOf path)

/-- Does a pattern clause match a path? -/
def matchPat (path : List Char) : Pat → Bool
  | .literal l => decide (path = l)
  | .subpath d => subpathMatch d path
  | .regex r => rmatch r path

/-- Does a directive apply to the given operation on the given path? -/
def matchD (op : Op) (path : List Char) (d : Directive) : Bool :=
  d.ops.contains op && d.pats.any (matchPat path)

/-- One step of in-order evaluation: a later matching directive overrides
the accumulated action. -/
def step (op : Op) (path : List Char) (acc : Action) (d : Directive) : Action :=
  if matchD op path d then d.action else acc

/-- Evaluate a document on an access: declaration order, last match wins,
`(allow default)` when nothing matches. -/
def evalDoc (doc : List Directive) (op : Op) (path : List Char) : Action :=
  doc.foldl (step op path) .allow

/-! ## `generator.py`: `SandboxProfileGenerator`

`h` is the home directory (`Path.home()`), `w` the resolved working
directory, both as literal path text. -/

/-- Security mode enum (`MODES = ['strict', 'balanced', 'permissive']`). -/
inductive Mode where
  | strict
  | balanced
  | permissive
deriving DecidableEq, Repr

/-- `generate_base_rules`: the `(version 1)` header and `(allow default)`
declaration contribute no match directives. -/
def genBase : List Directive := []

/-- `(deny file-read* file-write* (subpath "{home}/.ssh"))`. -/
def sshDeny (h : List Char) : Directive :=
  ⟨.deny, [.read, .write], [.subpath (h ++ cs "/.ssh")]⟩

/-- `(deny file-read* file-write* (subpath .aws) (.azure) (.gcloud) (.kube))`. -/
def cloudDeny (h : List Char) : Directive :=
  ⟨.deny, [.read, .write],
    [.subpath (h ++ cs "/.aws"), .subpath (h ++ cs "/.azure"),
     .subpath (h ++ cs "/.gcloud"), .subpath (h ++ cs "/.kube")]⟩

/-- `(deny file-read* file-write* (subpath "{home}/.gnupg"))`. -/
def gpgDeny (h : List Char) : Directive :=
  ⟨.deny, [.read, .write], [.subpath (h ++ cs "/.gnupg")]⟩

/-- The ten shell rc file literals of `generate_sensitive_protection_rules`. -/
def rcPats (h : List Char) : List Pat :=
  [.literal (h ++ cs "/.bashrc"), .literal (h ++ cs "/.bash_profile"),
   .literal (h ++ cs "/.bash_login"), .literal (h ++ cs "/.profile"),
   .literal (h ++ cs "/.zshrc"), .literal (h ++ cs "/.zshenv"),
   .literal (h ++ cs "/.zprofile"), .literal (h ++ cs "/.zlogin"),
   .literal (h ++ cs "/.tcshrc"), .literal (h ++ cs "/.cshrc")]

/-- The environment-file patterns: `.env`, `.envrc` literals and the regex
`#"{home}/\.env\..*$"`. -/
def envPats (h : List Char) : List Pat :=
  [.literal (h ++ cs "/.env"), .literal (h ++ cs "/.envrc"),
   .regex [.lit (h ++ cs "/.env."), .any]]

/-- The git-config literals: `.gitconfig`, `.git-credentials`, `.netrc`. -/
def gitPats (h : List Char) : List Pat :=
  [.literal (h ++ cs "/.gitconfig"), .literal (h ++ cs "/.git-credentials"),
   .literal (h ++ cs "/.netrc")]

/-- `(allow file-read* ...)` over the shell rc files. -/
def rcAllowD (h : List Char) : Directive := ⟨.allow, [.read], rcPats h⟩

/-- `(deny file-write* ...)` over the shell rc files. -/
def rcDenyWD (h : List Char) : Directive := ⟨.deny, [.write], rcPats h⟩

/-- `(deny file-read* file-write* ...)` over the shell rc files. -/
def rcDenyRWD (h : List Char) : Directive := ⟨.deny, [.read, .write], rcPats h⟩

/-- `(allow file-read* ...)` over the environment files. -/
def envAllowD (h : List Char) : Directive := ⟨.allow, [.read], envPats h⟩

/-- `(deny file-write* ...)` over the environment files. -/
def envDenyWD (h : List Char) : Directive := ⟨.deny, [.write], envPats h⟩

/-- `(deny file-read* file-write* ...)` over the environment files. -/
def envDenyRWD (h : List Char) : Directive := ⟨.deny, [.read, .write], envPats h⟩

/-- `(allow file-read* ...)` over the git config files. -/
def gitAllowD (h : List Char) : Directive := ⟨.allow, [.read], gitPats h⟩

/-- `(deny file-write* ...)` over the git config files. -/
def gitDenyWD (h : List Char) : Directive := ⟨.deny, [.write], gitPats h⟩

/-- `(deny file-read* file-write* ...)` over the git config files. -/
def gitDenyRWD (h : List Char) : Directive := ⟨.deny, [.read, .write], gitPats h⟩

/-- Shell-rc conditional block: `allow_rc_read` true gives
allow-read + deny-write, false gives a combined read/write deny. -/
def rcPart (allowRcRead : Bool) (h : List Char) : List Directive :=
  if allowRcRead then [rcAllowD h, rcDenyWD h] else [rcDenyRWD h]

/-- Environment-file conditional block, gated by `allow_env_read`. -/
def envPart (allowEnvRead : Bool) (h : List Char) : List Directive :=
  if allowEnvRead then [envAllowD h, envDenyWD h] else [envDenyRWD h]

/-- Git-config conditional block, gated by `allow_git`. -/
def gitPart (allowGit : Bool) (h : List Char) : List Directive :=
  if allowGit then [gitAllowD h, gitDenyWD h] else [gitDenyRWD h]

/-- `(deny file-read* file-write*)` over the eight private-key regexes
`{home}/.*\.pem$`, `...\.key$`, `...\.p12$`, `...\.pfx$`, `..._rsa$`,
`..._dsa$`, `..._ecdsa$`, `..._ed25519$`. -/
def pkDeny (h : List Char) : Directive :=
  ⟨.deny, [.read, .write],
    [.regex [.lit (h ++ cs "/"), .any, .lit (cs ".pem")],
     .regex [.lit (h ++ cs "/"), .any, .lit (cs ".key")],
     .regex [.lit (h ++ cs "/"), .any, .lit (cs ".p12")],
     .regex [.lit (h ++ cs "/"), .any, .lit (cs ".pfx")],
     .regex [.lit (h ++ cs "/"), .any, .lit (cs "_rsa")],
     .regex [.lit (h ++ cs "/"), .any, .lit (cs "_dsa")],
     .regex [.lit (h ++ cs "/"), .any, .lit (cs "_ecdsa")],
     .regex [.lit (h ++ cs "/"), .any, .lit (cs "_ed25519")]]⟩

/-- `(deny file-read* file-write*)` over the five credential/password
filename regexes `{home}/[^/]*credentials$`, `{home}/[^/]*password[^/]*$`,
`{home}/\..*credentials$`, `{home}/\..*token$`, `{home}/\..*secret$`. -/
def credDeny (h : List Char) : Directive :=
  ⟨.deny, [.read, .write],
    [.regex [.lit (h ++ cs "/"), .anyNoSlash, .lit (cs "credentials")],
     .regex [.lit (h ++ cs "/"), .anyNoSlash, .lit (cs "password"), .anyNoSlash],
     .regex [.lit (h ++ cs "/."), .any, .lit (cs "credentials")],
     .regex [.lit (h ++ cs "/."), .any, .lit (cs "token")],
     .regex [.lit (h ++ cs "/."), .any, .lit (cs "secret")]]⟩

/-- `generate_sensitive_protection_rules`: SSH/cloud/GPG directory denies,
then the three conditional blocks, then the private-key and credential
pattern denies, in exactly the order the source emits them. -/
def genSensitive (allowRcRead allowEnvRead allowGit : Bool) (h : List Char) :
    List Directive :=
  [sshDeny h, cloudDeny h, gpgDeny h] ++
    rcPart allowRcRead h ++ envPart allowEnvRead h ++ gitPart allowGit h ++
    [pkDeny h, credDeny h]

/-- `(allow file-read* (subpath "{home}/.local"))`. -/
def localAllowRead (h : List Char) : Directive :=
  ⟨.allow, [.read], [.subpath (h ++ cs "/.local")]⟩

/-- `(allow file-write* (subpath "{work_dir}"))`. -/
def workAllowWrite (w : List Char) : Directive :=
  ⟨.allow, [.write], [.subpath w]⟩

/-- The four `__pycache__` allow-write regexes. -/
def pycacheAllowWrite (h : List Char) : Directive :=
  ⟨.allow, [.write],
    [.regex [.lit (h ++ cs "/.local/"), .any, .lit (cs "/__pycache__/"), .any],
     .regex [.lit (h ++ cs "/miniforge3/"), .any, .lit (cs "/__pycache__/"), .any],
     .regex [.lit (h ++ cs "/.pyenv/"), .any, .lit (cs "/__pycache__/"), .any],
     .regex [.any, .lit (cs "/__pycache__/"), .any, .lit (cs ".pyc")]]⟩

/-- `(allow file-write* (subpath "/tmp") (subpath "/var/tmp")
(subpath "/private/tmp"))`. -/
def tmpAllowWrite : Directive :=
  ⟨.allow, [.write],
    [.subpath (cs "/tmp"), .subpath (cs "/var/tmp"), .subpath (cs "/private/tmp")]⟩

/-- `generate_strict_rules`: read `.local`; deny writes under home and under
`/`; allow writes to the working directory, `__pycache__` paths and tmp. -/
def strictRules (h w : List Char) : List Directive :=
  [localAllowRead h,
   ⟨.deny, [.write], [.subpath h, .subpath (cs "/")]⟩,
   workAllowWrite w, pycacheAllowWrite h, tmpAllowWrite]

/-- `generate_balanced_rules`: as strict but the write deny covers only the
home directory. -/
def balancedRules (h w : List Char) : List Directive :=
  [localAllowRead h,
   ⟨.deny, [.write], [.subpath h]⟩,
   workAllowWrite w, pycacheAllowWrite h, tmpAllowWrite]

/-- `generate_permissive_rules`: comments only, no directives. -/
def permissiveRules : List Directive := []

/-- Mode dispatch inside `generate`. -/
def modeRules : Mode → List Char → List Char → List Directive
  | .strict, h, w => strictRules h w
  | .balanced, h, w => balancedRules h w
  | .permissive, _, _ => permissiveRules

/-- `generate_custom_paths_rules`: one
`(allow file-read* file-write* (subpath p))` per extra allowed path. -/
def customRules (extras : List (List Char)) : List Directive :=
  extras.map (fun p => ⟨.allow, [.read, .write], [.subpath p]⟩)

/-- `SandboxProfileGenerator.generate`: base, mode rules, custom paths, then
the sensitive-protection block last. -/
def genDoc (m : Mode) (allowRcRead allowEnvRead allowGit : Bool)
    (extras : List (List Char)) (h w : List Char) : List Directive :=
  genBase ++ modeRules m h w ++ customRules extras ++
    genSensitive allowRcRead allowEnvRead allowGit h

/-! ## `cli.py`: the `agbox` launcher's profile -/

/-- The optional `SSH_AUTH_SOCK` allow at the top of `get_common_rules`:
`(allow file-read* file-write* file-ioctl (literal "{ssh_auth_sock}"))`. -/
def sockRule : Option (List Char) → List Directive
  | none => []
  | some sock => [⟨.allow, [.read, .write, .ioctl], [.literal sock]⟩]

/-- The launcher's SSH carve-out, emitted directly after the SSH subtree
deny: `(allow file-read* (literal .ssh) (literal .ssh/config)
(literal .ssh/known_hosts) (literal .ssh/known_hosts.old)
(regex #"{home}/\.ssh/.*\.pub$"))`. -/
def sshCarveAllow (h : List Char) : Directive :=
  ⟨.allow, [.read],
    [.literal (h ++ cs "/.ssh"), .literal (h ++ cs "/.ssh/config"),
     .literal (h ++ cs "/.ssh/known_hosts"),
     .literal (h ++ cs "/.ssh/known_hosts.old"),
     .regex [.lit (h ++ cs "/.ssh/"), .any, .lit (cs ".pub")]]⟩

/-- The launcher's environment-file deny (unconditional in `cli.py`). -/
def envDenyCli (h : List Char) : Directive := envDenyRWD h

/-- The launcher's private-key deny: ten regexes, the `.pem`/`.key`/
`.p12`/`.pfx` family restricted to direct children of home (`[^/]*`) and
two extra `-key.pem` / `_key.pem` variants, the openssh basenames with
`.*`. -/
def pkDenyCli (h : List Char) : Directive :=
  ⟨.deny, [.read, .write],
    [.regex [.lit (h ++ cs "/"), .anyNoSlash, .lit (cs ".pem")],
     .regex [.lit (h ++ cs "/"), .anyNoSlash, .lit (cs "-key.pem")],
     .regex [.lit (h ++ cs "/"), .anyNoSlash, .lit (cs "_key.pem")],
     .regex [.lit (h ++ cs "/"), .anyNoSlash, .lit (cs ".key")],
     .regex [.lit (h ++ cs "/"), .anyNoSlash, .lit (cs ".p12")],
     .regex [.lit (h ++ cs "/"), .anyNoSlash, .lit (cs ".pfx")],
     .regex [.lit (h ++ cs "/"), .any, .lit (cs "_rsa")],
     .regex [.lit (h ++ cs "/"), .any, .lit (cs "_dsa")],
     .regex [.lit (h ++ cs "/"), .any, .lit (cs "_ecdsa")],
     .regex [.lit (h ++ cs "/"), .any, .lit (cs "_ed25519")]]⟩

/-- `get_common_rules`: the launcher's sensitive-file block (with the SSH
carve-out and no rc/git rules — those live in `get_project_rules`). -/
def cliCommon (h : List Char) (sock : Option (List Char)) : List Directive :=
  sockRule sock ++
    [sshDeny h, sshCarveAllow h, cloudDeny h, gpgDeny h, envDenyCli h,
     pkDenyCli h, credDeny h]

/-- `(allow file-write* (subpath .cache) (subpath .config)
(regex #"{home}/\.zcompdump.*$"))`. -/
def cacheAllowWrite (h : List Char) : Directive :=
  ⟨.allow, [.write],
    [.subpath (h ++ cs "/.cache"), .subpath (h ++ cs "/.config"),
     .regex [.lit (h ++ cs "/.zcompdump"), .any]]⟩

/-- `get_project_rules`: workspace and development-tool rules, including the
always-on rc-read and git-read allowances. -/
def cliProject (h w : List Char) : List Directive :=
  [localAllowRead h,
   ⟨.deny, [.write], [.subpath h]⟩,
   workAllowWrite w, pycacheAllowWrite h, tmpAllowWrite,
   cacheAllowWrite h,
   rcAllowD h, rcDenyWD h, gitAllowD h, gitDenyWD h]

/-- `get_agent_rules`: Claude/Codex config write allowances.  The source
takes the agent name but does not use it. -/
def cliAgent (_agent : List Char) (h : List Char) : List Directive :=
  [⟨.allow, [.write],
     [.literal (h ++ cs "/.claude.json"), .subpath (h ++ cs "/.claude"),
      .subpath (h ++ cs "/.config/claude-code")]⟩,
   ⟨.allow, [.write], [.subpath (h ++ cs "/.codex")]⟩]

/-- `generate_sandbox_profile`: common rules, then project rules, then agent
rules (the sensitive block first, not last). -/
def cliDoc (h w agent : List Char) (sock : Option (List Char)) :
    List Directive :=
  cliCommon h sock ++ cliProject h w ++ cliAgent agent h

/-! ## `generator.py` `main`: working-directory validation (claim C4) -/

/-- Python whitespace, as stripped by `str.strip()`. -/
def isPySpace (c : Char) : Bool :=
  c = ' ' ∨ c = '\t' ∨ c = '\n' ∨ c = '\r' ∨ c = '\x0b' ∨ c = '\x0c'

/-- `str.strip()`. -/
def pyStrip (s : List Char) : List Char :=
  ((s.dropWhile isPySpace).reverse.dropWhile isPySpace).reverse

/-- `str.lower()` over the ASCII answers involved here. -/
def pyLower (s : List Char) : List Char := s.map Char.toLower

/-- `input(...).strip().lower()`. -/
def normResponse (s : List Char) : List Char := pyLower (pyStrip s)

/-- `generator.py main`'s working-directory gate: when the directory
exists, generation proceeds; otherwise a warning is printed and the user
is prompted `Continue anyway? (y/N)` — generation proceeds exactly when
the normalized response is `y` or `yes`, else `sys.exit(1)`. -/
def generatorProceeds (workDirExists : Bool) (response : List Char) : Bool :=
  if workDirExists then true
  else decide (normResponse response = cs "y") ||
    decide (normResponse response = cs "yes")

/-- The document `generator.py main` produces: `none` when the gate aborts
(`sys.exit(1)`) or when `Path.home()` raises in the constructor
(`homeOk = false`, home undeterminable), otherwise the generated document
(printed under `--dry-run`, written by `save()` otherwise). -/
def generatorMainDoc (workDirExists : Bool) (response : List Char)
    (homeOk : Bool) (m : Mode) (rc env git : Bool)
    (extras : List (List Char)) (h w : List Char) :
    Option (List Directive) :=
  if generatorProceeds workDirExists response then
    if homeOk then some (genDoc m rc env git extras h w) else none
  else none

/-- The document `cli.py main` produces: the working directory is
`Path(...).resolve()`d, which does not fail for nonexistent paths, and no
existence check is made — the profile is always generated (when
`Path.home()` succeeds). -/
def cliMainDoc (homeOk _workDirExists : Bool) (h w agent : List Char)
    (sock : Option (List Char)) : Option (List Directive) :=
  if homeOk then some (cliDoc h w agent sock) else none

/-! ## `cli.py` `main`: command resolution and artifact cleanup
(claims C7, C8) -/

/-- The single-quote character. -/
def sq : Char := '\''

/-- The double-quote character. -/
def dq : Char := '"'

/-- The characters `shlex.quote` leaves bare: `re.ASCII` word characters
plus at-sign, percent, plus, equals, colon, comma, dot, slash, dash. -/
def safeChar (c : Char) : Bool :=
  c ∈ cs "abcdefghijklmnopqrstuvwxyzABCDEFGHIJKLMNOPQRSTUVWXYZ0123456789_@%+=:,./-"

/-- The body of a single-quoted string: each single quote becomes
close-quote, a double-quoted quote, reopen-quote. -/
def escBody (s : List Char) : List Char :=
  s.flatMap (fun c => if c = sq then [sq, dq, sq, dq, sq] else [c])

/-- `shlex.quote`: empty strings become a pair of quotes, strings of safe
characters pass through, everything else is single-quoted. -/
def shQuote (s : List Char) : List Char :=
  if s = [] then [sq, sq]
  else if s.all safeChar then s
  else sq :: (escBody s ++ [sq])

/-- `' '.join(shlex.quote(arg) for arg in cmd_args)`. -/
def shJoin : List (List Char) → List Char
  | [] => []
  | [a] => shQuote a
  | a :: rest => shQuote a ++ ' ' :: shJoin rest

/-- Tokenizer quoting state: outside quotes, inside single quotes, inside
double quotes, and the two backslash-pending states (outside quotes and
inside double quotes). -/
inductive QMode where
  | norm
  | squote
  | dquote
  | esc
  | descq
deriving DecidableEq, Repr

/-- POSIX-style shell unescaping: field splitting on blanks with
single-quote, double-quote and backslash handling.  `acc` is the current
token, `st` whether a token has started (a quote pair opens a token even
when empty). -/
def unesc : List Char → List Char → Bool → QMode → List (List Char)
  | [], acc, st, .esc => if st then [acc ++ ['\\']] else [['\\']]
  | [], acc, st, .descq => if st then [acc ++ ['\\']] else [['\\']]
  | [], acc, st, _ => if st then [acc] else []
  | c :: rest, acc, st, .norm =>
      if c = ' ' ∨ c = '\t' ∨ c = '\n' then
        (if st then acc :: unesc rest [] false .norm
         else unesc rest [] false .norm)
      else if c = sq then unesc rest acc true .squote
      else if c = dq then unesc rest acc true .dquote
      else if c = '\\' then unesc rest acc st .esc
      else unesc rest (acc ++ [c]) true .norm
  | c :: rest, acc, _, .esc => unesc rest (acc ++ [c]) true .norm
  | c :: rest, acc, _, .squote =>
      if c = sq then unesc rest acc true .norm
      else unesc rest (acc ++ [c]) true .squote
  | c :: rest, acc, st, .dquote =>
      if c = dq then unesc rest acc true .norm
      else if c = '\\' then unesc rest acc st .descq
      else unesc rest (acc ++ [c]) true .dquote
  | c :: rest, acc, _, .descq =>
      if c = dq ∨ c = '\\' ∨ c = '$' ∨ c = '\x60' then
        unesc rest (acc ++ [c]) true .dquote
      else unesc rest (acc ++ ['\\', c]) true .dquote

/-- Shell-unescape a command string back into its fields. -/
def unescape (s : List Char) : List (List Char) := unesc s [] false .norm

/-- `cli.py main`'s command resolution: if `cmd_args[0]` resolves on the
search path (`shutil.which`), the arguments are unchanged; otherwise they
are rewritten to an interactive-shell invocation of the space-joined
quoted original arguments. -/
def resolveCommand (found : Bool) (shell : List Char)
    (args : List (List Char)) : List (List Char) :=
  if found then args else [shell, cs "-i", cs "-c", shJoin args]

/-- Python `try/finally` semantics: the finally block always runs; if it
raises, its exception replaces the body's outcome, otherwise the body's
outcome (value or exception) is preserved. -/
def tryFinally {α : Type} (body : Except Unit α) (fin : Except Unit Unit) :
    Except Unit α :=
  match fin with
  | .ok _ => body
  | .error e => .error e

/-- Python `try: act except: pass`: any failure of `act` is swallowed. -/
def tryExceptPass (act : Except Unit Unit) : Except Unit Unit :=
  match act with
  | _ => .ok ()

/-- `cli.py main` after the profile artifact is written: resolve the
command, run the child (`child` is `.ok code` for a completed child —
`sys.exit(code)` propagates its status — and `.error ()` when an exception
is raised before or at the child start), then in the `finally` block
attempt `os.unlink(profile_path)` with its own failure swallowed by the
inner `try/except: pass`.  The second component records that the deletion
attempt runs on this exit path (the `finally` block runs on normal
completion, on `sys.exit`, and on exceptions alike). -/
def launchAfterWrite (found : Bool) (shell : List Char)
    (args : List (List Char)) (child : Except Unit Int)
    (unlink : Except Unit Unit) : Except Unit Int × Bool :=
  let _cmd := resolveCommand found shell args
  (tryFinally child (tryExceptPass unlink), true)

/-! ## Determinism and mode-independence (claims C9, C10) -/

/-- The options of `SandboxProfileGenerator.__init__` / `parse_args` in
`generator.py`. -/
structure GenOptions where
  output : List Char
  mode : Mode
  workDir : List Char
  allowedPaths : List (List Char)
  allowGit : Bool
  allowRcRead : Bool
  allowEnvRead : Bool
deriving DecidableEq, Repr

/-- `SandboxProfileGenerator.generate`, as a function of the options and
the single environment fact it reads (`Path.home()`). -/
def generate (o : GenOptions) (home : List Char) : List Directive :=
  genDoc o.mode o.allowRcRead o.allowEnvRead o.allowGit o.allowedPaths
    home o.workDir

/-- What `main` prints under `--dry-run`: `generator.generate()`. -/
def generatorDryRunOutput (o : GenOptions) (home : List Char) :
    List Directive := generate o home

/-- What `save()` writes to disk: `self.generate()`. -/
def generatorSavedContent (o : GenOptions) (home : List Char) :
    List Directive := generate o home

/-- The launcher option record built by `cli.py parse_args`. -/
structure CliOptions where
  verbose : Bool
  mode : Mode
  agent : List Char
  workDir : List Char
  dryRun : Bool
deriving DecidableEq, Repr

/-- `cli.py main` computes
`generate_sandbox_profile(work_dir, home, agent)`: the mode option is not
passed to profile generation. -/
def launcherProfile (o : CliOptions) (home : List Char)
    (sock : Option (List Char)) : List Directive :=
  cliDoc home o.workDir o.agent sock

/-- `cli.py main` under `--dry-run` prints `profile_content`. -/
def launcherDryRunOutput (o : CliOptions) (home : List Char)
    (sock : Option (List Char)) : List Directive :=
  launcherProfile o home sock

/-- `cli.py main` otherwise writes the same `profile_content` to the
temporary artifact. -/
def launcherWrittenContent (o : CliOptions) (home : List Char)
    (sock : Option (List Char)) : List Directive :=
  launcherProfile o home sock

/-- The after-home tails of the ten shell rc literals. -/
def rcTails : List (List Char) :=
  [cs "/.bashrc", cs "/.bash_profile", cs "/.bash_login", cs "/.profile",
   cs "/.zshrc", cs "/.zshenv", cs "/.zprofile", cs "/.zlogin",
   cs "/.tcshrc", cs "/.cshrc"]

/-- The after-home tails of the three git-config literals. -/
def gitTails : List (List Char) :=
  [cs "/.gitconfig", cs "/.git-credentials", cs "/.netrc"]

/-! ## Claim path sets -/

/-- A literal path strictly inside the SSH directory. -/
def underSSH (h p : List Char) : Prop := ∃ s, p = h ++ (cs "/.ssh/" ++ s)

/-- The SSH tails the spec's carve-out names: `config`, `known_hosts`,
`known_hosts.old`, `*.pub`. -/
def sshCarveName (s : List Char) : Prop :=
  s = cs "config" ∨ s = cs "known_hosts" ∨ s = cs "known_hosts.old" ∨
    cs ".pub" <:+ s

/-- The path matches one of the four cloud-credential directory patterns. -/
def cloudHit (h p : List Char) : Prop :=
  (cloudDeny h).pats.any (matchPat p) = true

/-- The path matches the GPG directory pattern. -/
def gpgHit (h p : List Char) : Prop :=
  subpathMatch (h ++ cs "/.gnupg") p = true

/-- The path matches one of the private-key filename patterns. -/
def pkHit (h p : List Char) : Prop :=
  (pkDeny h).pats.any (matchPat p) = true

/-- The path matches one of the credential/password filename patterns. -/
def credHit (h p : List Char) : Prop :=
  (credDeny h).pats.any (matchPat p) = true

instance (s : List Char) : Decidable (sshCarveName s) := by
  unfold sshCarveName
  infer_instance

instance (h p : List Char) : Decidable (cloudHit h p) := by
  unfold cloudHit
  infer_instance

instance (h p : List Char) : Decidable (gpgHit h p) := by
  unfold gpgHit
  infer_instance

instance (h p : List Char) : Decidable (pkHit h p) := by
  unfold pkHit
  infer_instance

instance (h p : List Char) : Decidable (credHit h p) := by
  unfold credHit
  infer_instance

/-- The five deny groups the spec calls the sensitive-protection layer,
as emitted by the generator. -/
def genSensDenies (h : List Char) : List Directive :=
  [sshDeny h, cloudDeny h, gpgDeny h, pkDeny h, credDeny h]

/-- The five deny groups as emitted by the launcher (`get_common_rules`). -/
def cliSensDenies (h : List Char) : List Directive :=
  [sshDeny h, cloudDeny h, gpgDeny h, pkDenyCli h, credDeny h]

/-- The claim's ordering property: in the assembled document, every
directive belonging to the sensitive-protection deny groups appears
strictly after every directive that does not. -/
def sensitiveLast (doc sens : List Directive) : Prop :=
  ∀ i j : Fin doc.length, doc.get i ∈ sens → doc.get j ∉ sens → j < i

instance (doc sens : List Directive) : Decidable (sensitiveLast doc sens) := by
  unfold sensitiveLast
  infer_instance

/-! ## List toolkit: prefix/suffix refutation under a symbolic home prefix -/

/-- A concrete tail followed by anything never equals a different concrete
tail: refute `x ++ t = y` from decidable `¬ x.isPrefixOf y`. -/
theorem ne_of_not_isPrefixOf {x y t : List Char} (hx : x.isPrefixOf y = false) :
    x ++ t ≠ y := by
  intro he
  have : x <+: y := ⟨t, he⟩
  rw [← List.isPrefixOf_iff_prefix] at this
  simp [hx] at this

/-- Prefix cancellation, Bool form. -/
theorem isPrefixOf_append_left (h x y : List Char) :
    (h ++ x).isPrefixOf (h ++ y) = x.isPrefixOf y := by
  by_cases hp : x.isPrefixOf y
  · rw [hp]
    rw [List.isPrefixOf_iff_prefix] at hp ⊢
    exact (List.prefix_append_right_inj h).mpr hp
  · simp only [Bool.not_eq_true] at hp
    rw [hp]
    rw [← Bool.not_eq_true, List.isPrefixOf_iff_prefix] at hp ⊢
    intro hc
    exact hp ((List.prefix_append_right_inj h).mp hc)

/-- A short pattern that fails on a concrete tail also fails with more text
appended to the tail. -/
theorem not_isPrefixOf_append {x y : List Char} (t : List Char)
    (hlen : x.length ≤ y.length) (hx : x.isPrefixOf y = false) :
    x.isPrefixOf (y ++ t) = false := by
  by_contra hc
  simp only [Bool.not_eq_false, List.isPrefixOf_iff_prefix] at hc
  rw [← Bool.not_eq_true, List.isPrefixOf_iff_prefix] at hx
  exact hx (List.prefix_of_prefix_length_le hc (List.prefix_append y t) hlen)

/-- Suffixes of the same list with the shorter one no longer than the
longer are nested. -/
theorem suffix_of_suffix_length_le {a b l : List Char}
    (ha : a <:+ l) (hb : b <:+ l) (hl : b.length ≤ a.length) : b <:+ a := by
  rw [← List.reverse_prefix] at ha hb ⊢
  exact List.prefix_of_prefix_length_le hb ha (by simpa using hl)

/-! ## Regex characterization lemmas -/

theorem rmatch_nil_iff {p : List Char} : rmatch [] p = true ↔ p = [] := by
  simp [rmatch, List.isEmpty_iff]

theorem rmatch_lit_append (a : List Char) (rs : List RSeg) (t : List Char) :
    rmatch (.lit a :: rs) (a ++ t) = rmatch rs t := by
  have h1 : a.isPrefixOf (a ++ t) = true := by
    rw [List.isPrefixOf_iff_prefix]; exact List.prefix_append a t
  simp [rmatch, h1, List.drop_left]

theorem rmatch_lit_of_not_prefix {a p : List Char} (rs : List RSeg)
    (h : a.isPrefixOf p = false) : rmatch (.lit a :: rs) p = false := by
  simp [rmatch, h]

theorem rmatch_lit_single {s p : List Char} :
    rmatch [.lit s] p = true ↔ p = s := by
  constructor
  · intro h
    simp only [rmatch, Bool.and_eq_true] at h
    obtain ⟨h1, h2⟩ := h
    rw [List.isPrefixOf_iff_prefix] at h1
    obtain ⟨t, ht⟩ := h1
    subst ht
    rw [List.drop_left] at h2
    rw [List.isEmpty_iff] at h2
    simp [h2]
  · intro h
    have h2 := rmatch_lit_append s [] []
    simp only [List.append_nil] at h2
    rw [h, h2]
    simp [rmatch]

theorem rmatch_any_iff {rs : List RSeg} {p : List Char} :
    rmatch (.any :: rs) p = true ↔ ∃ u v, p = u ++ v ∧ rmatch rs v = true := by
  simp only [rmatch, List.any_eq_true, List.mem_tails]
  constructor
  · rintro ⟨v, ⟨u, hu⟩, hv⟩
    exact ⟨u, v, hu.symm, hv⟩
  · rintro ⟨u, v, huv, hv⟩
    exact ⟨v, ⟨u, huv.symm⟩, hv⟩

/-- Members of `nsTails p` are suffixes of `p` reachable without crossing
a slash. -/
theorem mem_nsTails {p v : List Char} (h : v ∈ nsTails p) :
    ∃ u, p = u ++ v ∧ '/' ∉ u := by
  induction p with
  | nil =>
    simp only [nsTails, List.mem_singleton] at h
    exact ⟨[], by simp [h]⟩
  | cons c t ih =>
    simp only [nsTails, List.mem_cons] at h
    rcases h with rfl | h
    · exact ⟨[], by simp⟩
    · by_cases hc : c = '/'
      · simp [hc] at h
      · simp only [if_neg hc] at h
        obtain ⟨u, hu, hnu⟩ := ih h
        exact ⟨c :: u, by simp [hu], by simp [hnu, Ne.symm, hc]⟩

theorem nsTails_mem_of {p u v : List Char} (huv : p = u ++ v) (hu : '/' ∉ u) :
    v ∈ nsTails p := by
  subst huv
  induction u with
  | nil =>
    cases v with
    | nil => simp [nsTails]
    | cons c t => simp [nsTails]
  | cons c t ih =>
    simp only [List.mem_cons, not_or] at hu
    simp only [List.cons_append, nsTails, List.mem_cons]
    right
    rw [if_neg (Ne.symm hu.1)]
    exact ih hu.2

theorem rmatch_anyNoSlash_iff {rs : List RSeg} {p : List Char} :
    rmatch (.anyNoSlash :: rs) p = true ↔
      ∃ u v, p = u ++ v ∧ '/' ∉ u ∧ rmatch rs v = true := by
  simp only [rmatch, List.any_eq_true]
  constructor
  · rintro ⟨v, hv, hm⟩
    obtain ⟨u, hu, hnu⟩ := mem_nsTails hv
    exact ⟨u, v, hu, hnu, hm⟩
  · rintro ⟨u, v, huv, hnu, hm⟩
    exact ⟨v, nsTails_mem_of huv hnu, hm⟩

theorem rmatch_anyNoSlash_imp {rs : List RSeg} {p : List Char}
    (h : rmatch (.anyNoSlash :: rs) p = true) : rmatch (.any :: rs) p = true := by
  obtain ⟨u, v, huv, -, hm⟩ := rmatch_anyNoSlash_iff.mp h
  exact rmatch_any_iff.mpr ⟨u, v, huv, hm⟩

/-- The `.*suffix$` shape: a match ends with the literal suffix. -/
theorem rmatch_any_lit_suffix {s p : List Char}
    (h : rmatch [.any, .lit s] p = true) : s <:+ p := by
  obtain ⟨u, v, huv, hv⟩ := rmatch_any_iff.mp h
  rw [rmatch_lit_single] at hv
  subst hv
  exact huv ▸ ⟨u, rfl⟩

/-- The `.*mid.*` / `.*mid.*end$` shapes start by containing `mid`. -/
theorem rmatch_any_lit_rest {s p : List Char} {rs : List RSeg}
    (h : rmatch (.any :: .lit s :: rs) p = true) :
    ∃ u v, p = u ++ s ++ v ∧ rmatch rs v = true := by
  obtain ⟨u, v, huv, hv⟩ := rmatch_any_iff.mp h
  simp only [rmatch, Bool.and_eq_true] at hv
  obtain ⟨h1, h2⟩ := hv
  rw [List.isPrefixOf_iff_prefix] at h1
  obtain ⟨t, ht⟩ := h1
  subst ht
  rw [List.drop_left] at h2
  exact ⟨u, t, by simp [huv, List.append_assoc], h2⟩

/-- Positive direction: gluing a match for the rest after arbitrary text
consumed by `.*`. -/
theorem rmatch_any_of_rest {rs : List RSeg} (u : List Char) {v : List Char}
    (h : rmatch rs v = true) : rmatch (.any :: rs) (u ++ v) = true :=
  rmatch_any_iff.mpr ⟨u, v, rfl, h⟩

/-- A suffix bounded by the concrete tail of an appended path is a suffix of
the tail. -/
theorem suffix_tail_of_suffix_append {s h t : List Char}
    (hs : s <:+ h ++ t) (hl : s.length ≤ t.length) : s <:+ t :=
  suffix_of_suffix_length_le ⟨h, rfl⟩ hs hl

/-! ## Evaluation lemmas: last-match-wins over concatenated layers -/

theorem evalDoc_append (A B : List Directive) (op : Op) (p : List Char) :
    evalDoc (A ++ B) op p = B.foldl (step op p) (evalDoc A op p) := by
  simp [evalDoc, List.foldl_append]

/-- A segment none of whose directives match leaves the accumulator
unchanged. -/
theorem foldl_step_no_match {L : List Directive} {op : Op} {p : List Char}
    (h : ∀ d ∈ L, matchD op p d = false) (a : Action) :
    L.foldl (step op p) a = a := by
  induction L generalizing a with
  | nil => rfl
  | cons d L ih =>
    simp only [List.foldl_cons]
    rw [show step op p a d = a by simp [step, h d (by simp)]]
    exact ih (fun d' hd' => h d' (by simp [hd'])) a

/-- A segment whose matching directives are all denies keeps a deny. -/
theorem foldl_step_keep_deny {L : List Directive} {op : Op} {p : List Char}
    (h : ∀ d ∈ L, d.action = .allow → matchD op p d = false) :
    L.foldl (step op p) .deny = .deny := by
  induction L with
  | nil => rfl
  | cons d L ih =>
    simp only [List.foldl_cons]
    have hd : step op p .deny d = .deny := by
      unfold step
      split
      · next hm =>
        cases ha : d.action
        · exact absurd hm (by simp [h d (by simp) ha])
        · rfl
      · rfl
    rw [hd]
    exact ih (fun d' hd' => h d' (by simp [hd']))

/-- If some directive of a segment matches, its matching directives are all
denies, and nothing after needs to match, the segment forces a deny from any
starting action. -/
theorem foldl_step_deny {L : List Directive} {op : Op} {p : List Char}
    (h1 : ∀ d ∈ L, d.action = .allow → matchD op p d = false)
    (h2 : ∃ d ∈ L, matchD op p d = true ∧ d.action = .deny) (a : Action) :
    L.foldl (step op p) a = .deny := by
  induction L generalizing a with
  | nil => simp at h2
  | cons d L ih =>
    simp only [List.foldl_cons]
    obtain ⟨d0, hd0mem, hd0m, hd0d⟩ := h2
    rcases List.mem_cons.mp hd0mem with rfl | hd0mem
    · rw [show step op p a d0 = .deny by simp [step, hd0m, hd0d]]
      exact foldl_step_keep_deny (fun d' hd' => h1 d' (by simp [hd']))
    · exact ih (fun d' hd' => h1 d' (by simp [hd'])) ⟨d0, hd0mem, hd0m, hd0d⟩ _

/-- Deny verdict from a trailing segment: if the document ends with a
segment whose matching directives are all denies and at least one matches,
the access is denied. -/
theorem evalDoc_deny_of_tail {A L : List Directive} {op : Op} {p : List Char}
    (h1 : ∀ d ∈ L, d.action = .allow → matchD op p d = false)
    (h2 : ∃ d ∈ L, matchD op p d = true ∧ d.action = .deny) :
    evalDoc (A ++ L) op p = .deny := by
  rw [evalDoc_append]
  exact foldl_step_deny h1 h2 _

/-- Allow verdict: a matching allow directive followed only by
non-matching directives decides the access. -/
theorem evalDoc_allow_of_tail {A B : List Directive} {d0 : Directive}
    {op : Op} {p : List Char}
    (hm : matchD op p d0 = true) (ha : d0.action = .allow)
    (hB : ∀ d ∈ B, matchD op p d = false) :
    evalDoc (A ++ d0 :: B) op p = .allow := by
  rw [evalDoc_append]
  simp only [List.foldl_cons]
  rw [show step op p (evalDoc A op p) d0 = .allow by simp [step, hm, ha]]
  exact foldl_step_no_match hB _

/-- Allow verdict when no directive of the document matches at all
(`(allow default)`). -/
theorem evalDoc_allow_of_no_match {L : List Directive} {op : Op}
    {p : List Char} (h : ∀ d ∈ L, matchD op p d = false) :
    evalDoc L op p = .allow :=
  foldl_step_no_match h _

/-- Allow verdict when every matching directive in the document is an
allow and nothing flips it back: in a default-allow document it suffices
that no matching directive is a deny. -/
theorem evalDoc_allow_of_no_deny {L : List Directive} {op : Op}
    {p : List Char} (h : ∀ d ∈ L, d.action = .deny → matchD op p d = false) :
    evalDoc L op p = .allow := by
  unfold evalDoc
  generalize ha : Action.allow = a
  induction L generalizing a with
  | nil => simp [← ha]
  | cons d L ih =>
    simp only [List.foldl_cons]
    have hd : step op p a d = a := by
      unfold step
      split
      · next hm =>
        cases hact : d.action
        · rw [← ha]
        · exact absurd hm (by simp [h d (by simp) hact])
      · rfl
    rw [hd]
    exact ih (fun d' hd' => h d' (by simp [hd'])) a ha

/-! ## Pattern matching under a symbolic home prefix -/

/-- Literal mismatch under a common prefix. -/
theorem literal_no_match {h a c : List Char} (hne : a ≠ c) :
    matchPat (h ++ a) (.literal (h ++ c)) = false := by
  simp only [matchPat, decide_eq_false_iff_not]
  exact fun hc => hne (List.append_cancel_left hc)

/-- Consuming a shared home-plus-prefix literal reduces the match to the
rest of the pattern on the rest of the path. -/
theorem rmatch_hPrefix (h pre rest : List Char) (rs : List RSeg) :
    rmatch (.lit (h ++ pre) :: rs) (h ++ (pre ++ rest)) = rmatch rs rest := by
  rw [show h ++ (pre ++ rest) = (h ++ pre) ++ rest from
    (List.append_assoc h pre rest).symm, rmatch_lit_append]

/-- A home-anchored regex fails when its leading literal is not a prefix of
the path, comparing past the shared home. -/
theorem rmatch_hPrefix_false {h pre a : List Char} (rs : List RSeg)
    (hno : pre.isPrefixOf a = false) :
    rmatch (.lit (h ++ pre) :: rs) (h ++ a) = false := by
  apply rmatch_lit_of_not_prefix
  rw [isPrefixOf_append_left]
  exact hno

/-- A directive none of whose patterns match governs nothing. -/
theorem matchD_false_of_any {op : Op} {p : List Char} {d : Directive}
    (h : d.pats.any (matchPat p) = false) : matchD op p d = false := by
  simp [matchD, h]

/-- A directive whose operation list is `[file-read*]` never governs a
write. -/
theorem matchD_write_read_only {p : List Char} {a : Action} {pats : List Pat} :
    matchD .write p ⟨a, [.read], pats⟩ = false := by
  simp [matchD, List.contains]

/-- A directive whose operation list is `[file-write*]` never governs a
read. -/
theorem matchD_read_write_only {p : List Char} {a : Action} {pats : List Pat} :
    matchD .read p ⟨a, [.write], pats⟩ = false := by
  simp [matchD, List.contains]

/-- Strip the shared home-plus-prefix from a regex evaluation. -/
theorem rmatch_strip {h pre rest : List Char} (rs : List RSeg) {b : Bool}
    (hd : rmatch rs rest = b) :
    rmatch (.lit (h ++ pre) :: rs) (h ++ (pre ++ rest)) = b := by
  rw [rmatch_hPrefix]
  exact hd

theorem ne_append_of_ne_tail {x s t : List Char} (hne : s ≠ t) :
    x ++ s ≠ x ++ t :=
  fun hc => hne (List.append_cancel_left hc)

/-- `(subpath dir)` match analysis for a non-root directory. -/
theorem subpathMatch_cases {dir p : List Char} (hdir : dir ≠ ['/'])
    (h : subpathMatch dir p = true) :
    p = dir ∨ ∃ s, p = (dir ++ ['/']) ++ s := by
  simp only [subpathMatch, Bool.or_eq_true, Bool.and_eq_true,
    decide_eq_true_eq] at h
  rcases h with (h | h) | h
  · exact .inl h
  · rw [List.isPrefixOf_iff_prefix] at h
    obtain ⟨s, hs⟩ := h
    exact .inr ⟨s, hs.symm⟩
  · exact absurd h.1 hdir

/-- A home-anchored directory is never the filesystem root. -/
theorem happend_ne_root {h x : List Char} (hx : 2 ≤ x.length) :
    h ++ x ≠ ['/'] := by
  intro hc
  have := congrArg List.length hc
  simp at this
  omega

/-- Refute a home-anchored `(subpath (h ++ x))` on a path `h ++ a` from
decidable facts about the tails. -/
theorem subpathMatch_happend_false {h x a : List Char} (hx : 2 ≤ x.length)
    (hne : a ≠ x) (hpre : (x ++ ['/']).isPrefixOf a = false) :
    subpathMatch (h ++ x) (h ++ a) = false := by
  simp only [subpathMatch, Bool.or_eq_false_iff, Bool.and_eq_false_iff]
  refine ⟨⟨?_, ?_⟩, ?_⟩
  · simp only [decide_eq_false_iff_not]
    exact fun hc => hne (List.append_cancel_left hc)
  · rw [show (h ++ x) ++ ['/'] = h ++ (x ++ ['/']) from List.append_assoc ..]
    rw [isPrefixOf_append_left]
    exact hpre
  · left
    simp only [decide_eq_false_iff_not]
    exact happend_ne_root hx

/-- `(subpath dir)` matches everything strictly below `dir`. -/
theorem subpathMatch_below (dir s : List Char) :
    subpathMatch dir ((dir ++ ['/']) ++ s) = true := by
  simp only [subpathMatch, Bool.or_eq_true]
  refine .inl (.inr ?_)
  rw [List.isPrefixOf_iff_prefix]
  exact ⟨s, rfl⟩

/-- `(subpath dir)` matches `dir` itself. -/
theorem subpathMatch_self (dir : List Char) :
    subpathMatch dir dir = true := by
  simp [subpathMatch]

/-- Anything matched below a home-anchored subdirectory (a tail beginning
with `/`) is also below the home directory. -/
theorem subpathMatch_home_of_sub {h x' p : List Char}
    (hm : subpathMatch (h ++ '/' :: x') p = true) :
    subpathMatch h p = true := by
  simp only [subpathMatch, Bool.or_eq_true, Bool.and_eq_true,
    decide_eq_true_eq] at hm ⊢
  rcases hm with (hm | hm) | hm
  · refine .inl (.inr ?_)
    rw [List.isPrefixOf_iff_prefix, hm,
      show h ++ '/' :: x' = (h ++ ['/']) ++ x' by simp]
    exact List.prefix_append _ _
  · refine .inl (.inr ?_)
    rw [List.isPrefixOf_iff_prefix] at hm ⊢
    refine List.IsPrefix.trans ?_ hm
    rw [show (h ++ '/' :: x') ++ ['/'] = h ++ ['/'] ++ (x' ++ ['/']) by simp]
    exact List.prefix_append _ _
  · obtain ⟨hm1, hm2⟩ := hm
    have hlen := congrArg List.length hm1
    simp only [List.length_append, List.length_cons] at hlen
    have hh : h = [] := List.length_eq_zero.mp (by simp at hlen; omega)
    subst hh
    exact .inl (.inr hm2)

/-! ## The conditional allow directives never reach the sensitive paths -/


theorem rcPats_eq (h : List Char) :
    rcPats h = rcTails.map (fun c => .literal (h ++ c)) := rfl

theorem gitPats_eq (h : List Char) :
    gitPats h = gitTails.map (fun c => .literal (h ++ c)) := rfl

theorem any_literal_false {h a : List Char} {cl : List (List Char)}
    (hlit : ∀ c ∈ cl, a ≠ c) :
    (cl.map (fun c => Pat.literal (h ++ c))).any (matchPat (h ++ a)) = false := by
  rw [List.any_eq_false]
  intro pat hpat
  rw [List.mem_map] at hpat
  obtain ⟨c, hc, rfl⟩ := hpat
  simp [literal_no_match (hlit c hc)]

/-- Package the per-literal inequalities into one decidable check on the
tail alphabet. -/
theorem forall_ne_of_prefix_false {cl : List (List Char)} {pre : List Char}
    (s : List Char) (hp : cl.all (fun c => !pre.isPrefixOf c) = true) :
    ∀ c ∈ cl, pre ++ s ≠ c := by
  intro c hc
  rw [List.all_eq_true] at hp
  have := hp c hc
  exact ne_of_not_isPrefixOf (by simpa using this)

theorem envPats_any_false {h a : List Char}
    (h1 : a ≠ cs "/.env") (h2 : a ≠ cs "/.envrc")
    (hre : (cs "/.env.").isPrefixOf a = false) :
    (envPats h).any (matchPat (h ++ a)) = false := by
  rw [List.any_eq_false]
  intro pat hpat
  simp only [envPats, List.mem_cons, List.not_mem_nil, or_false] at hpat
  rcases hpat with rfl | rfl | rfl
  · simp [literal_no_match h1]
  · simp [literal_no_match h2]
  · simp only [matchPat]
    simp [rmatch_hPrefix_false [.any] hre]

/-- All three conditional allow directives miss a path `h ++ a` whose tail
is distinct from every rc/env/git literal tail and not below `.env.`. -/
theorem condAllows_no_match {h a : List Char} {op : Op}
    (hrc : ∀ c ∈ rcTails, a ≠ c) (hgit : ∀ c ∈ gitTails, a ≠ c)
    (h1 : a ≠ cs "/.env") (h2 : a ≠ cs "/.envrc")
    (hre : (cs "/.env.").isPrefixOf a = false) :
    matchD op (h ++ a) (rcAllowD h) = false ∧
      matchD op (h ++ a) (envAllowD h) = false ∧
      matchD op (h ++ a) (gitAllowD h) = false := by
  refine ⟨?_, ?_, ?_⟩
  · simp [matchD, rcAllowD, rcPats_eq, any_literal_false hrc]
  · simp [matchD, envAllowD, envPats_any_false h1 h2 hre]
  · simp [matchD, gitAllowD, gitPats_eq, any_literal_false hgit]

theorem rcPart_mem {b : Bool} {h : List Char} {d : Directive}
    (hd : d ∈ rcPart b h) :
    d = rcAllowD h ∨ d = rcDenyWD h ∨ d = rcDenyRWD h := by
  cases b <;> simp [rcPart] at hd <;> tauto

theorem envPart_mem {b : Bool} {h : List Char} {d : Directive}
    (hd : d ∈ envPart b h) :
    d = envAllowD h ∨ d = envDenyWD h ∨ d = envDenyRWD h := by
  cases b <;> simp [envPart] at hd <;> tauto

theorem gitPart_mem {b : Bool} {h : List Char} {d : Directive}
    (hd : d ∈ gitPart b h) :
    d = gitAllowD h ∨ d = gitDenyWD h ∨ d = gitDenyRWD h := by
  cases b <;> simp [gitPart] at hd <;> tauto

/-- In the generator's sensitive-protection layer, only the three
conditional allow directives carry the `allow` action. -/
theorem genSensitive_allow_mem {rc env git : Bool} {h : List Char}
    {d : Directive} (hd : d ∈ genSensitive rc env git h)
    (ha : d.action = .allow) :
    d = rcAllowD h ∨ d = envAllowD h ∨ d = gitAllowD h := by
  simp only [genSensitive, List.mem_append, List.mem_cons,
    List.not_mem_nil, or_false] at hd
  rcases hd with ((((hd | hd | hd) | hd) | hd) | hd) | hd | hd
  · rw [hd] at ha; exact absurd ha (by simp [sshDeny])
  · rw [hd] at ha; exact absurd ha (by simp [cloudDeny])
  · rw [hd] at ha; exact absurd ha (by simp [gpgDeny])
  · rcases rcPart_mem hd with rfl | rfl | rfl
    · exact .inl rfl
    · exact absurd ha (by simp [rcDenyWD])
    · exact absurd ha (by simp [rcDenyRWD])
  · rcases envPart_mem hd with rfl | rfl | rfl
    · exact .inr (.inl rfl)
    · exact absurd ha (by simp [envDenyWD])
    · exact absurd ha (by simp [envDenyRWD])
  · rcases gitPart_mem hd with rfl | rfl | rfl
    · exact .inr (.inr rfl)
    · exact absurd ha (by simp [gitDenyWD])
    · exact absurd ha (by simp [gitDenyRWD])
  · rw [hd] at ha; exact absurd ha (by simp [pkDeny])
  · rw [hd] at ha; exact absurd ha (by simp [credDeny])

/-- Bundled form: if the three conditional allow directives miss the path,
no allow directive of the sensitive-protection layer matches it. -/
theorem genSensitive_no_allow_match {rc env git : Bool} {h p : List Char}
    {op : Op}
    (h1 : matchD op p (rcAllowD h) = false)
    (h2 : matchD op p (envAllowD h) = false)
    (h3 : matchD op p (gitAllowD h) = false) :
    ∀ d ∈ genSensitive rc env git h, d.action = .allow →
      matchD op p d = false := by
  intro d hd ha
  rcases genSensitive_allow_mem hd ha with rfl | rfl | rfl
  · exact h1
  · exact h2
  · exact h3

/-! ## The generator document denies every sensitive access -/

/-- A read/write deny directive fires on both operations whenever one of
its patterns matches. -/
theorem matchD_rw_of_any {p : List Char} {pats : List Pat} {op : Op}
    (hop : op = .read ∨ op = .write)
    (hany : pats.any (matchPat p) = true) :
    matchD op p ⟨.deny, [.read, .write], pats⟩ = true := by
  rcases hop with rfl | rfl <;> simp [matchD, List.contains, hany]

/-- Pure associativity: gluing `(subpath (h ++ x))` onto a path written as
`h ++ ((x ++ "/") ++ s)`. -/
theorem subpathMatch_happend_below (h x s : List Char) :
    subpathMatch (h ++ x) (h ++ ((x ++ ['/']) ++ s)) = true := by
  have he : h ++ ((x ++ ['/']) ++ s) = ((h ++ x) ++ ['/']) ++ s := by
    simp [List.append_assoc]
  rw [he]
  exact subpathMatch_below _ _

/-- Core deny lemma: a matching deny directive of the sensitive layer plus
non-matching conditional allows force a deny verdict from the whole
generator document, for both read and write. -/
theorem genDoc_deny_via_sens {m : Mode} {rc env git : Bool}
    {extras : List (List Char)} {h w p : List Char} {d0 : Directive}
    (hd0 : d0 ∈ genSensitive rc env git h)
    (hmr : matchD .read p d0 = true) (hmw : matchD .write p d0 = true)
    (hden : d0.action = .deny)
    (hc1 : matchD .read p (rcAllowD h) = false)
    (hc2 : matchD .read p (envAllowD h) = false)
    (hc3 : matchD .read p (gitAllowD h) = false) :
    evalDoc (genDoc m rc env git extras h w) .read p = .deny ∧
      evalDoc (genDoc m rc env git extras h w) .write p = .deny := by
  constructor
  · exact evalDoc_deny_of_tail (genSensitive_no_allow_match hc1 hc2 hc3)
      ⟨d0, hd0, hmr, hden⟩
  · exact evalDoc_deny_of_tail
      (genSensitive_no_allow_match matchD_write_read_only
        matchD_write_read_only matchD_write_read_only)
      ⟨d0, hd0, hmw, hden⟩

/-- The conditional allows miss any path of the form
`home ++ pre ++ s` when the decidable side conditions on the concrete
prefix `pre` hold. -/
theorem condAllows_no_match_pre {h : List Char} (pre s : List Char) {op : Op}
    (hrc : rcTails.all (fun c => !pre.isPrefixOf c) = true)
    (hgit : gitTails.all (fun c => !pre.isPrefixOf c) = true)
    (h1 : pre.isPrefixOf (cs "/.env") = false)
    (h2 : pre.isPrefixOf (cs "/.envrc") = false)
    (hre1 : (cs "/.env.").length ≤ pre.length)
    (hre2 : (cs "/.env.").isPrefixOf pre = false) :
    matchD op (h ++ (pre ++ s)) (rcAllowD h) = false ∧
      matchD op (h ++ (pre ++ s)) (envAllowD h) = false ∧
      matchD op (h ++ (pre ++ s)) (gitAllowD h) = false :=
  condAllows_no_match (forall_ne_of_prefix_false s hrc)
    (forall_ne_of_prefix_false s hgit)
    (ne_of_not_isPrefixOf h1) (ne_of_not_isPrefixOf h2)
    (not_isPrefixOf_append s hre1 hre2)

/-- Membership shorthand for the SSH deny in the sensitive layer. -/
theorem sshDeny_mem_sens {rc env git : Bool} {h : List Char} :
    sshDeny h ∈ genSensitive rc env git h := by
  simp [genSensitive]

theorem cloudDeny_mem_sens {rc env git : Bool} {h : List Char} :
    cloudDeny h ∈ genSensitive rc env git h := by
  simp [genSensitive]

theorem gpgDeny_mem_sens {rc env git : Bool} {h : List Char} :
    gpgDeny h ∈ genSensitive rc env git h := by
  simp [genSensitive]

theorem pkDeny_mem_sens {rc env git : Bool} {h : List Char} :
    pkDeny h ∈ genSensitive rc env git h := by
  simp [genSensitive]

theorem credDeny_mem_sens {rc env git : Bool} {h : List Char} :
    credDeny h ∈ genSensitive rc env git h := by
  simp [genSensitive]

theorem matchD_of_pat {p : List Char} {d : Directive} {pat : Pat}
    (hpat : pat ∈ d.pats) (hm : matchPat p pat = true)
    (hops : d.ops = [.read, .write]) {op : Op}
    (hop : op = .read ∨ op = .write) : matchD op p d = true := by
  have hany : d.pats.any (matchPat p) = true := List.any_eq_true.mpr ⟨pat, hpat, hm⟩
  rcases hop with rfl | rfl <;> simp [matchD, hops, List.contains, hany]

/-- One matching pattern of a read/write deny in the sensitive layer, plus
the conditional-allow misses, decide both verdicts. -/
theorem genDoc_deny_case {m : Mode} {rc env git : Bool}
    {extras : List (List Char)} {h w p : List Char} {d0 : Directive}
    (pat : Pat)
    (hd0 : d0 ∈ genSensitive rc env git h) (hpat : pat ∈ d0.pats)
    (hm : matchPat p pat = true) (hden : d0.action = .deny)
    (hops : d0.ops = [.read, .write])
    (hc : matchD .read p (rcAllowD h) = false ∧
      matchD .read p (envAllowD h) = false ∧
      matchD .read p (gitAllowD h) = false) :
    evalDoc (genDoc m rc env git extras h w) .read p = .deny ∧
      evalDoc (genDoc m rc env git extras h w) .write p = .deny :=
  genDoc_deny_via_sens hd0 (matchD_of_pat hpat hm hops (.inl rfl))
    (matchD_of_pat hpat hm hops (.inr rfl)) hden hc.1 hc.2.1 hc.2.2


/-- Deny case for a whole protected directory: split on the path being the
directory itself or strictly below it. -/
theorem genDoc_deny_dircase {m : Mode} {rc env git : Bool}
    {extras : List (List Char)} {h w p x : List Char} {d0 : Directive}
    (hd0 : d0 ∈ genSensitive rc env git h)
    (hpat : Pat.subpath (h ++ x) ∈ d0.pats)
    (hden : d0.action = .deny) (hops : d0.ops = [.read, .write])
    (hm : subpathMatch (h ++ x) p = true) (hx2 : 2 ≤ x.length)
    (hcE : matchD .read (h ++ x) (rcAllowD h) = false ∧
      matchD .read (h ++ x) (envAllowD h) = false ∧
      matchD .read (h ++ x) (gitAllowD h) = false)
    (hcP : ∀ s, matchD .read (h ++ ((x ++ ['/']) ++ s)) (rcAllowD h) = false ∧
      matchD .read (h ++ ((x ++ ['/']) ++ s)) (envAllowD h) = false ∧
      matchD .read (h ++ ((x ++ ['/']) ++ s)) (gitAllowD h) = false) :
    evalDoc (genDoc m rc env git extras h w) .read p = .deny ∧
      evalDoc (genDoc m rc env git extras h w) .write p = .deny := by
  rcases subpathMatch_cases (happend_ne_root hx2) hm with rfl | ⟨s, rfl⟩
  · exact genDoc_deny_case _ hd0 hpat (subpathMatch_self _) hden hops hcE
  · have hpe : ((h ++ x) ++ ['/']) ++ s = h ++ ((x ++ ['/']) ++ s) := by
      simp [List.append_assoc]
    rw [hpe]
    exact genDoc_deny_case _ hd0 hpat (subpathMatch_happend_below h x s)
      hden hops (hcP s)

/-- `generate` splits as everything before the two final pattern denies,
followed by exactly those two denies. -/
theorem genDoc_decomp (m : Mode) (rc env git : Bool)
    (extras : List (List Char)) (h w : List Char) :
    genDoc m rc env git extras h w =
      (genBase ++ modeRules m h w ++ customRules extras ++
        ([sshDeny h, cloudDeny h, gpgDeny h] ++ rcPart rc h ++
          envPart env h ++ gitPart git h)) ++ [pkDeny h, credDeny h] := by
  simp [genDoc, genSensitive, List.append_assoc]

/-- C2 (amended): in every document the generator produces — any mode, any
toggle combination, any extra allow-paths, any working directory — a path
under the SSH directory (the carve-out names included, since the generator
emits no carve-out), or matching a cloud-credential, GPG, private-key or
credential-filename pattern, is denied for both read and write. -/
theorem generator_always_denies (m : Mode) (rc env git : Bool)
    (extras : List (List Char)) (h w p : List Char)
    (hp : (∃ s, p = h ++ (cs "/.ssh/" ++ s) ∧ ¬sshCarveName s) ∨
      cloudHit h p ∨ gpgHit h p ∨ pkHit h p ∨ credHit h p) :
    evalDoc (genDoc m rc env git extras h w) .read p = .deny ∧
      evalDoc (genDoc m rc env git extras h w) .write p = .deny := by
  rcases hp with ⟨s, rfl, -⟩ | hp | hp | hp | hp
  · refine genDoc_deny_case (.subpath (h ++ cs "/.ssh")) sshDeny_mem_sens
      (by simp [sshDeny]) ?_ rfl rfl ?_
    · exact subpathMatch_happend_below h (cs "/.ssh") s
    · exact condAllows_no_match_pre (cs "/.ssh/") s (by decide)
        (by decide) (by decide) (by decide) (by decide) (by decide)
  · simp only [cloudHit, cloudDeny, List.any_cons, List.any_nil,
      Bool.or_false, Bool.or_eq_true, matchPat] at hp
    rcases hp with hm | hm | hm | hm
    · exact genDoc_deny_dircase cloudDeny_mem_sens (by simp [cloudDeny])
        rfl rfl hm (by decide)
        (condAllows_no_match (by decide) (by decide) (by decide) (by decide)
          (by decide))
        (fun s => condAllows_no_match_pre _ s (by decide) (by decide) (by decide)
          (by decide) (by decide) (by decide))
    · exact genDoc_deny_dircase cloudDeny_mem_sens (by simp [cloudDeny])
        rfl rfl hm (by decide)
        (condAllows_no_match (by decide) (by decide) (by decide) (by decide)
          (by decide))
        (fun s => condAllows_no_match_pre _ s (by decide) (by decide) (by decide)
          (by decide) (by decide) (by decide))
    · exact genDoc_deny_dircase cloudDeny_mem_sens (by simp [cloudDeny])
        rfl rfl hm (by decide)
        (condAllows_no_match (by decide) (by decide) (by decide) (by decide)
          (by decide))
        (fun s => condAllows_no_match_pre _ s (by decide) (by decide) (by decide)
          (by decide) (by decide) (by decide))
    · exact genDoc_deny_dircase cloudDeny_mem_sens (by simp [cloudDeny])
        rfl rfl hm (by decide)
        (condAllows_no_match (by decide) (by decide) (by decide) (by decide)
          (by decide))
        (fun s => condAllows_no_match_pre _ s (by decide) (by decide) (by decide)
          (by decide) (by decide) (by decide))
  · exact genDoc_deny_dircase gpgDeny_mem_sens (by simp [gpgDeny])
      rfl rfl hp (by decide)
      (condAllows_no_match (by decide) (by decide) (by decide) (by decide)
        (by decide))
      (fun s => condAllows_no_match_pre _ s (by decide) (by decide) (by decide)
        (by decide) (by decide) (by decide))
  · rw [genDoc_decomp]
    have h1 : ∀ d ∈ [pkDeny h, credDeny h], d.action = .allow →
        ∀ op, matchD op p d = false := by
      intro d hd ha
      rcases List.mem_cons.mp hd with rfl | hd
      · simp [pkDeny] at ha
      · rcases List.mem_cons.mp hd with rfl | hd
        · simp [credDeny] at ha
        · simp at hd
    constructor <;>
      exact evalDoc_deny_of_tail (fun d hd ha => h1 d hd ha _)
        ⟨pkDeny h, by simp, matchD_rw_of_any (by simp) hp, rfl⟩
  · rw [genDoc_decomp]
    have h1 : ∀ d ∈ [pkDeny h, credDeny h], d.action = .allow →
        ∀ op, matchD op p d = false := by
      intro d hd ha
      rcases List.mem_cons.mp hd with rfl | hd
      · simp [pkDeny] at ha
      · rcases List.mem_cons.mp hd with rfl | hd
        · simp [credDeny] at ha
        · simp at hd
    constructor <;>
      exact evalDoc_deny_of_tail (fun d hd ha => h1 d hd ha _)
        ⟨credDeny h, by simp, matchD_rw_of_any (by simp) hp, rfl⟩

/-! ## Layer ordering (claim C1) -/


/-- Positions in the left part of a concatenation: an element whose value
does not occur in the right part sits at an index below the split. -/
theorem idx_lt_of_not_mem_right {A B : List Directive}
    {i : Fin (A ++ B).length} (h : (A ++ B).get i ∉ B) : i.val < A.length := by
  by_contra hc
  push_neg at hc
  apply h
  have heq := @List.getElem_append_right _ A B i.val hc i.isLt
  rw [← List.get_eq_getElem] at heq
  rw [heq]
  exact List.getElem_mem _

/-- Positions in the right part of a concatenation: an element whose value
does not occur in the left part sits at an index at or above the split. -/
theorem idx_ge_of_not_mem_left {A B : List Directive}
    {i : Fin (A ++ B).length} (h : (A ++ B).get i ∉ A) : A.length ≤ i.val := by
  by_contra hc
  push_neg at hc
  apply h
  have := @List.getElem_append_left _ i.val A B hc i.isLt
  rw [← List.get_eq_getElem] at this
  rw [this]
  exact List.getElem_mem _

/-- Flat enumeration of the generator's sensitive layer. -/
theorem genSensitive_mem_cases {rc env git : Bool} {h : List Char}
    {d : Directive} (hd : d ∈ genSensitive rc env git h) :
    d = sshDeny h ∨ d = cloudDeny h ∨ d = gpgDeny h ∨
    d = rcAllowD h ∨ d = rcDenyWD h ∨ d = rcDenyRWD h ∨
    d = envAllowD h ∨ d = envDenyWD h ∨ d = envDenyRWD h ∨
    d = gitAllowD h ∨ d = gitDenyWD h ∨ d = gitDenyRWD h ∨
    d = pkDeny h ∨ d = credDeny h := by
  simp only [genSensitive, List.mem_append, List.mem_cons,
    List.not_mem_nil, or_false] at hd
  rcases hd with ((((hd | hd | hd) | hd) | hd) | hd) | hd | hd
  · tauto
  · tauto
  · tauto
  · rcases rcPart_mem hd with rfl | rfl | rfl <;> tauto
  · rcases envPart_mem hd with rfl | rfl | rfl <;> tauto
  · rcases gitPart_mem hd with rfl | rfl | rfl <;> tauto
  · tauto
  · tauto

/-- The sensitive deny groups never occur among the mode or custom-path
directives: their action/operations signature is unique. -/
theorem sensDenies_not_mem_front {m : Mode} {h w : List Char}
    {extras : List (List Char)} :
    ∀ d ∈ genSensDenies h, d ∉ modeRules m h w ++ customRules extras := by
  intro d hd hmem
  simp only [genSensDenies, List.mem_cons, List.not_mem_nil, or_false] at hd
  rcases List.mem_append.mp hmem with hA | hA
  · cases m <;>
      simp only [modeRules, strictRules, balancedRules, permissiveRules,
        List.mem_cons, List.not_mem_nil, or_false] at hA <;>
      rcases hd with rfl | rfl | rfl | rfl | rfl <;>
      simp_all [sshDeny, cloudDeny, gpgDeny, pkDeny, credDeny,
        localAllowRead, workAllowWrite, pycacheAllowWrite, tmpAllowWrite]
  · simp only [customRules, List.mem_map] at hA
    obtain ⟨q, -, hq⟩ := hA
    rcases hd with rfl | rfl | rfl | rfl | rfl <;>
      simp [sshDeny, cloudDeny, gpgDeny, pkDeny, credDeny] at hq

/-- Mode and custom-path directives never occur inside the sensitive
layer. -/
theorem front_not_mem_sens {m : Mode} {rc env git : Bool}
    {h w : List Char} {extras : List (List Char)} :
    ∀ d ∈ modeRules m h w ++ customRules extras,
      d ∉ genSensitive rc env git h := by
  intro d hmem hsens
  have hsig := genSensitive_mem_cases hsens
  rcases List.mem_append.mp hmem with hA | hA
  · rcases hsig with
      rfl | rfl | rfl | rfl | rfl | rfl | rfl | rfl | rfl | rfl | rfl | rfl |
        rfl | rfl <;>
      cases m <;>
      simp [modeRules, strictRules, balancedRules, permissiveRules,
        sshDeny, cloudDeny, gpgDeny, rcAllowD, rcDenyWD, rcDenyRWD,
        envAllowD, envDenyWD, envDenyRWD, gitAllowD, gitDenyWD, gitDenyRWD,
        pkDeny, credDeny, localAllowRead, workAllowWrite, pycacheAllowWrite,
        tmpAllowWrite, rcPats, envPats, gitPats] at hA
  · simp only [customRules, List.mem_map] at hA
    obtain ⟨q, -, hq⟩ := hA
    rcases hsig with
      rfl | rfl | rfl | rfl | rfl | rfl | rfl | rfl | rfl | rfl | rfl | rfl |
        rfl | rfl <;>
      simp [sshDeny, cloudDeny, gpgDeny, rcAllowD, rcDenyWD, rcDenyRWD,
        envAllowD, envDenyWD, envDenyRWD, gitAllowD, gitDenyWD, gitDenyRWD,
        pkDeny, credDeny] at hq

/-- Positions across a concatenation split, determined by value
disjointness. -/
theorem append_position_lt {A B S T : List Directive}
    (hS : ∀ d ∈ S, d ∉ A) (hT : ∀ d ∈ T, d ∉ B)
    (i j : Fin (A ++ B).length)
    (hi : (A ++ B).get i ∈ S) (hj : (A ++ B).get j ∈ T) : j < i := by
  have h1 : A.length ≤ i.val := idx_ge_of_not_mem_left (hS _ hi)
  have h2 : j.val < A.length := idx_lt_of_not_mem_right (hT _ hj)
  rw [Fin.lt_def]
  omega

/-- C1 (amended, generator side): in every generator document the five
sensitive deny groups appear strictly after every mode-layer and
custom-paths directive, and the document ends with the private-key and
credential-filename denies.  (The conditional rc/env/git directives are
emitted inside the final layer, between the directory denies and the
pattern denies.) -/
theorem generator_ordering (m : Mode) (rc env git : Bool)
    (extras : List (List Char)) (h w : List Char) :
    (∀ i j : Fin (genDoc m rc env git extras h w).length,
      (genDoc m rc env git extras h w).get i ∈ genSensDenies h →
      (genDoc m rc env git extras h w).get j ∈
        modeRules m h w ++ customRules extras →
      j < i) ∧
    ∃ front, genDoc m rc env git extras h w =
      front ++ [pkDeny h, credDeny h] := by
  constructor
  · intro i j hi hj
    refine append_position_lt ?_ ?_ i j hi hj
    · intro d hd
      have hns := @sensDenies_not_mem_front m h w extras d hd
      simpa [genBase] using hns
    · exact front_not_mem_sens
  · exact ⟨_, genDoc_decomp m rc env git extras h w⟩

/-! ## Launcher SSH carve-out machinery (claim C3) -/

/-- For the four carve-out paths, none of the deny directives that follow
the carve-out allow in `get_common_rules` matches a read. -/
theorem cliTail_read_no_match (h : List Char) :
    ∀ a ∈ [cs "/.ssh/config", cs "/.ssh/known_hosts",
      cs "/.ssh/known_hosts.old", cs "/.ssh/id_rsa.pub"],
    ∀ d ∈ [cloudDeny h, gpgDeny h, envDenyCli h, pkDenyCli h, credDeny h],
      matchD .read (h ++ a) d = false := by
  intro a ha d hd
  apply matchD_false_of_any
  rw [List.any_eq_false]
  intro pat hpat
  simp only [List.mem_cons, List.not_mem_nil, or_false] at ha hd
  rcases ha with rfl | rfl | rfl | rfl <;>
    rcases hd with rfl | rfl | rfl | rfl | rfl <;>
    simp only [cloudDeny, gpgDeny, envDenyCli, envDenyRWD, envPats, pkDenyCli,
      credDeny] at hpat <;>
    fin_cases hpat <;>
    simp only [Bool.not_eq_true] <;>
    first
      | exact literal_no_match (by decide)
      | exact subpathMatch_happend_false (by decide) (by decide) (by decide)
      | exact rmatch_strip _ (by decide)
      | exact rmatch_hPrefix_false _ (by decide)

/-- The SSH deny of the launcher's common layer matches every path under
the SSH directory. -/
theorem sshDeny_any (h s : List Char) :
    (sshDeny h).pats.any (matchPat (h ++ (cs "/.ssh/" ++ s))) = true := by
  simp only [sshDeny, List.any_cons, List.any_nil, Bool.or_false]
  exact subpathMatch_happend_below h (cs "/.ssh") s

/-- C3 (amended): the launcher's sensitive layer denies read and write on
the whole SSH subtree, and directly after the subtree deny carries an
Allow(read) whose patterns are exactly the `.ssh` directory literal itself,
`config`, `known_hosts`, `known_hosts.old` and `*.pub`; under last-match
evaluation of that layer the carved names read as Allow, everything else
under `.ssh` reads as Deny, and writes are denied throughout.  The
generator's sensitive layer has no carve-out: it denies reads of the whole
subtree for every toggle combination. -/
theorem launcher_ssh_carveout (h : List Char) (sock : Option (List Char)) :
    (∃ pre post, cliCommon h sock = pre ++ sshDeny h :: sshCarveAllow h :: post) ∧
    sshCarveAllow h = ⟨.allow, [.read],
      [.literal (h ++ cs "/.ssh"), .literal (h ++ cs "/.ssh/config"),
       .literal (h ++ cs "/.ssh/known_hosts"),
       .literal (h ++ cs "/.ssh/known_hosts.old"),
       .regex [.lit (h ++ cs "/.ssh/"), .any, .lit (cs ".pub")]]⟩ ∧
    (∀ s, evalDoc (cliCommon h sock) .write (h ++ (cs "/.ssh/" ++ s)) = .deny) ∧
    evalDoc (cliCommon h sock) .read (h ++ cs "/.ssh/config") = .allow ∧
    evalDoc (cliCommon h sock) .read (h ++ cs "/.ssh/known_hosts") = .allow ∧
    evalDoc (cliCommon h sock) .read (h ++ cs "/.ssh/known_hosts.old") = .allow ∧
    evalDoc (cliCommon h sock) .read (h ++ cs "/.ssh/id_rsa.pub") = .allow ∧
    (∀ s, s ≠ cs "config" → s ≠ cs "known_hosts" → s ≠ cs "known_hosts.old" →
      rmatch [.any, .lit (cs ".pub")] s = false →
      evalDoc (cliCommon h sock) .read (h ++ (cs "/.ssh/" ++ s)) = .deny) ∧
    (∀ rc env git : Bool, ∀ s,
      evalDoc (genSensitive rc env git h) .read (h ++ (cs "/.ssh/" ++ s)) =
        .deny) := by
  have hrw : cliCommon h sock = (sockRule sock ++ [sshDeny h]) ++
      sshCarveAllow h ::
      [cloudDeny h, gpgDeny h, envDenyCli h, pkDenyCli h, credDeny h] := by
    simp [cliCommon, List.append_assoc]
  refine ⟨⟨sockRule sock, _, rfl⟩, rfl, ?_, ?_, ?_, ?_, ?_, ?_, ?_⟩
  · -- writes denied on the subtree
    intro s
    refine evalDoc_deny_of_tail ?_ ⟨sshDeny h, by simp,
      matchD_rw_of_any (.inr rfl) (sshDeny_any h s), rfl⟩
    intro d hd ha
    fin_cases hd
    · simp [sshDeny] at ha
    · exact matchD_write_read_only
    · simp [cloudDeny] at ha
    · simp [gpgDeny] at ha
    · simp [envDenyCli, envDenyRWD] at ha
    · simp [pkDenyCli] at ha
    · simp [credDeny] at ha
  · rw [hrw]
    refine evalDoc_allow_of_tail ?_ rfl (cliTail_read_no_match h _ (by simp))
    simp [matchD, sshCarveAllow, matchPat, List.contains]
  · rw [hrw]
    refine evalDoc_allow_of_tail ?_ rfl (cliTail_read_no_match h _ (by simp))
    simp [matchD, sshCarveAllow, matchPat, List.contains]
  · rw [hrw]
    refine evalDoc_allow_of_tail ?_ rfl (cliTail_read_no_match h _ (by simp))
    simp [matchD, sshCarveAllow, matchPat, List.contains]
  · rw [hrw]
    refine evalDoc_allow_of_tail ?_ rfl (cliTail_read_no_match h _ (by simp))
    have hpub := @rmatch_strip h (cs "/.ssh/") (cs "id_rsa.pub")
      [.any, .lit (cs ".pub")] true (by decide)
    simp only [matchD, sshCarveAllow, List.contains, List.any_cons,
      List.any_nil, matchPat]
    simp only [Bool.or_false, Bool.and_eq_true, Bool.or_eq_true,
      decide_eq_true_eq]
    refine ⟨by decide, ?_⟩
    right; right; right; right
    exact hpub
  · -- reads denied on non-carve-out names
    intro s h1 h2 h3 h4
    refine evalDoc_deny_of_tail ?_ ⟨sshDeny h, by simp,
      matchD_rw_of_any (.inl rfl) (sshDeny_any h s), rfl⟩
    intro d hd ha
    fin_cases hd
    · simp [sshDeny] at ha
    · -- the carve-out allow misses s
      apply matchD_false_of_any
      rw [List.any_eq_false]
      intro pat hpat
      simp only [sshCarveAllow] at hpat
      fin_cases hpat <;> simp only [Bool.not_eq_true]
      · exact literal_no_match (ne_of_not_isPrefixOf (by decide))
      · exact literal_no_match (ne_append_of_ne_tail h1)
      · exact literal_no_match (ne_append_of_ne_tail h2)
      · exact literal_no_match (ne_append_of_ne_tail h3)
      · exact rmatch_strip _ h4
    · simp [cloudDeny] at ha
    · simp [gpgDeny] at ha
    · simp [envDenyCli, envDenyRWD] at ha
    · simp [pkDenyCli] at ha
    · simp [credDeny] at ha
  · -- the generator has no carve-out at all
    intro rc env git s
    refine evalDoc_deny_of_tail (A := []) ?_ ⟨sshDeny h, sshDeny_mem_sens,
      matchD_rw_of_any (.inl rfl) (sshDeny_any h s), rfl⟩
    refine genSensitive_no_allow_match ?_ ?_ ?_
    · exact (condAllows_no_match_pre (cs "/.ssh/") s (by decide) (by decide)
        (by decide) (by decide) (by decide) (by decide)).1
    · exact (condAllows_no_match_pre (cs "/.ssh/") s (by decide) (by decide)
        (by decide) (by decide) (by decide) (by decide)).2.1
    · exact (condAllows_no_match_pre (cs "/.ssh/") s (by decide) (by decide)
        (by decide) (by decide) (by decide) (by decide)).2.2

/-! ## Conditional toggle machinery (claim C5) -/

theorem matchD_w_of_any {p : List Char} {pats : List Pat}
    (hany : pats.any (matchPat p) = true) :
    matchD .write p ⟨.deny, [.write], pats⟩ = true := by
  simp [matchD, List.contains, hany]

theorem matchD_r_of_any {p : List Char} {pats : List Pat}
    (hany : pats.any (matchPat p) = true) :
    matchD .read p ⟨.allow, [.read], pats⟩ = true := by
  simp [matchD, List.contains, hany]

theorem rmatch_any_end (t : List Char) : rmatch [.any] t = true := by
  simp only [rmatch, List.any_eq_true]
  exact ⟨[], by simp [List.mem_tails], by simp [rmatch]⟩

theorem any_literal_true {h c : List Char} {cl : List (List Char)}
    (hc : c ∈ cl) :
    (cl.map (fun c => Pat.literal (h ++ c))).any (matchPat (h ++ c)) = true := by
  rw [List.any_eq_true]
  exact ⟨.literal (h ++ c), List.mem_map.mpr ⟨c, hc, rfl⟩, by simp [matchPat]⟩

/-- Split the generator document before the rc conditional block. -/
theorem genDoc_decomp_rc (m : Mode) (rc env git : Bool)
    (extras : List (List Char)) (h w : List Char) :
    genDoc m rc env git extras h w =
      (genBase ++ modeRules m h w ++ customRules extras ++
        [sshDeny h, cloudDeny h, gpgDeny h]) ++
      (rcPart rc h ++ (envPart env h ++ (gitPart git h ++
        [pkDeny h, credDeny h]))) := by
  simp [genDoc, genSensitive, List.append_assoc]

/-- Split the generator document before the env conditional block. -/
theorem genDoc_decomp_env (m : Mode) (rc env git : Bool)
    (extras : List (List Char)) (h w : List Char) :
    genDoc m rc env git extras h w =
      (genBase ++ modeRules m h w ++ customRules extras ++
        [sshDeny h, cloudDeny h, gpgDeny h] ++ rcPart rc h) ++
      (envPart env h ++ (gitPart git h ++ [pkDeny h, credDeny h])) := by
  simp [genDoc, genSensitive, List.append_assoc]

/-- Split the generator document before the git conditional block. -/
theorem genDoc_decomp_git (m : Mode) (rc env git : Bool)
    (extras : List (List Char)) (h w : List Char) :
    genDoc m rc env git extras h w =
      (genBase ++ modeRules m h w ++ customRules extras ++
        [sshDeny h, cloudDeny h, gpgDeny h] ++ rcPart rc h ++
        envPart env h) ++
      (gitPart git h ++ [pkDeny h, credDeny h]) := by
  simp [genDoc, genSensitive, List.append_assoc]

/-- The private-key and credential pattern denies miss every rc/env/git
literal except `.git-credentials`. -/
theorem pk_cred_no_match_lit (h : List Char) :
    ∀ c ∈ rcTails ++ [cs "/.env", cs "/.envrc", cs "/.gitconfig",
      cs "/.netrc"],
      ∀ op : Op, ∀ d ∈ [pkDeny h, credDeny h], matchD op (h ++ c) d = false := by
  intro c hc op d hd
  apply matchD_false_of_any
  rw [List.any_eq_false]
  intro pat hpat
  simp only [List.mem_cons, List.not_mem_nil, or_false] at hd
  fin_cases hc <;> rcases hd with rfl | rfl <;>
    simp only [pkDeny, credDeny] at hpat <;> fin_cases hpat <;>
    simp only [Bool.not_eq_true] <;> exact rmatch_strip _ (by decide)

/-- The env patterns miss the rc and git literals. -/
theorem envPats_miss (h : List Char) :
    ∀ c ∈ rcTails ++ gitTails,
      (envPats h).any (matchPat (h ++ c)) = false := by
  intro c hc
  fin_cases hc <;>
    exact envPats_any_false (by decide) (by decide) (by decide)

/-- The rc literals miss the env and git file names. -/
theorem rcPats_miss (h : List Char) :
    ∀ c ∈ [cs "/.env", cs "/.envrc"] ++ gitTails,
      (rcPats h).any (matchPat (h ++ c)) = false := by
  intro c hc
  fin_cases hc <;> rw [rcPats_eq] <;> exact any_literal_false (by decide)

/-- The git literals miss the rc and env file names. -/
theorem gitPats_miss (h : List Char) :
    ∀ c ∈ rcTails ++ [cs "/.env", cs "/.envrc"],
      (gitPats h).any (matchPat (h ++ c)) = false := by
  intro c hc
  fin_cases hc <;> rw [gitPats_eq] <;> exact any_literal_false (by decide)

/-- Evaluation of the generator document on the shell rc files: full deny
with the toggle off, read-only with it on. -/
theorem rc_group_eval (m : Mode) (rc env git : Bool)
    (extras : List (List Char)) (h w : List Char) :
    ∀ c ∈ rcTails,
      (rc = false →
        evalDoc (genDoc m rc env git extras h w) .read (h ++ c) = .deny ∧
        evalDoc (genDoc m rc env git extras h w) .write (h ++ c) = .deny) ∧
      (rc = true →
        evalDoc (genDoc m rc env git extras h w) .read (h ++ c) = .allow ∧
        evalDoc (genDoc m rc env git extras h w) .write (h ++ c) = .deny) := by
  intro c hc
  have hcrc : c ∈ rcTails ++ [cs "/.env", cs "/.envrc", cs "/.gitconfig",
      cs "/.netrc"] := List.mem_append.mpr (.inl hc)
  have hrcany : (rcPats h).any (matchPat (h ++ c)) = true := by
    rw [rcPats_eq]
    exact any_literal_true hc
  have henvmiss : (envPats h).any (matchPat (h ++ c)) = false :=
    envPats_miss h c (List.mem_append.mpr (.inl hc))
  have hgitmiss : (gitPats h).any (matchPat (h ++ c)) = false :=
    gitPats_miss h c (List.mem_append.mpr (.inl hc))
  constructor
  · rintro rfl
    have key : ∀ op : Op, op = .read ∨ op = .write →
        evalDoc (genDoc m false env git extras h w) op (h ++ c) = .deny := by
      intro op hop
      rw [genDoc_decomp_rc]
      refine evalDoc_deny_of_tail ?_
        ⟨rcDenyRWD h, by simp [rcPart], matchD_rw_of_any hop hrcany, rfl⟩
      intro d hd ha
      rcases List.mem_append.mp hd with hd | hd
      · simp only [rcPart, if_neg (by simp : ¬(false = true)),
          List.mem_singleton] at hd
        subst hd
        simp [rcDenyRWD] at ha
      rcases List.mem_append.mp hd with hd | hd
      · rcases envPart_mem hd with rfl | rfl | rfl <;>
          exact matchD_false_of_any henvmiss
      rcases List.mem_append.mp hd with hd | hd
      · rcases gitPart_mem hd with rfl | rfl | rfl <;>
          exact matchD_false_of_any hgitmiss
      · exact pk_cred_no_match_lit h c hcrc op d hd
    exact ⟨key _ (.inl rfl), key _ (.inr rfl)⟩
  · rintro rfl
    constructor
    · rw [genDoc_decomp_rc]
      refine evalDoc_allow_of_tail (matchD_r_of_any hrcany) rfl ?_
      intro d hd
      rcases List.mem_cons.mp hd with rfl | hd
      · exact matchD_read_write_only
      rcases List.mem_append.mp hd with hd | hd
      · simp at hd
      rcases List.mem_append.mp hd with hd | hd
      · rcases envPart_mem hd with rfl | rfl | rfl <;>
          exact matchD_false_of_any henvmiss
      rcases List.mem_append.mp hd with hd | hd
      · rcases gitPart_mem hd with rfl | rfl | rfl <;>
          exact matchD_false_of_any hgitmiss
      · exact pk_cred_no_match_lit h c hcrc .read d hd
    · rw [genDoc_decomp_rc]
      refine evalDoc_deny_of_tail ?_
        ⟨rcDenyWD h, by simp [rcPart], matchD_w_of_any hrcany, rfl⟩
      intro d hd ha
      rcases List.mem_append.mp hd with hd | hd
      · simp only [rcPart, if_true, List.mem_cons, List.not_mem_nil,
          or_false] at hd
        rcases hd with rfl | rfl
        · exact matchD_write_read_only
        · simp [rcDenyWD] at ha
      rcases List.mem_append.mp hd with hd | hd
      · rcases envPart_mem hd with rfl | rfl | rfl <;>
          first
            | exact matchD_write_read_only
            | exact matchD_false_of_any henvmiss
      rcases List.mem_append.mp hd with hd | hd
      · rcases gitPart_mem hd with rfl | rfl | rfl <;>
          first
            | exact matchD_write_read_only
            | exact matchD_false_of_any hgitmiss
      · exact pk_cred_no_match_lit h c hcrc .write d hd

/-- Evaluation of the generator document on the `.env`/`.envrc` literals. -/
theorem env_lit_group_eval (m : Mode) (rc env git : Bool)
    (extras : List (List Char)) (h w : List Char) :
    ∀ c ∈ [cs "/.env", cs "/.envrc"],
      (env = false →
        evalDoc (genDoc m rc env git extras h w) .read (h ++ c) = .deny ∧
        evalDoc (genDoc m rc env git extras h w) .write (h ++ c) = .deny) ∧
      (env = true →
        evalDoc (genDoc m rc env git extras h w) .read (h ++ c) = .allow ∧
        evalDoc (genDoc m rc env git extras h w) .write (h ++ c) = .deny) := by
  intro c hc
  have hcall : c ∈ rcTails ++ [cs "/.env", cs "/.envrc", cs "/.gitconfig",
      cs "/.netrc"] := by fin_cases hc <;> decide
  have henvany : (envPats h).any (matchPat (h ++ c)) = true := by
    fin_cases hc <;> simp [envPats, matchPat]
  have hgitmiss : (gitPats h).any (matchPat (h ++ c)) = false := by
    rw [gitPats_eq]
    fin_cases hc <;> exact any_literal_false (by decide)
  constructor
  · rintro rfl
    have key : ∀ op : Op, op = .read ∨ op = .write →
        evalDoc (genDoc m rc false git extras h w) op (h ++ c) = .deny := by
      intro op hop
      rw [genDoc_decomp_env]
      refine evalDoc_deny_of_tail ?_
        ⟨envDenyRWD h, by simp [envPart], matchD_rw_of_any hop henvany, rfl⟩
      intro d hd ha
      rcases List.mem_append.mp hd with hd | hd
      · simp [envPart] at hd
        subst hd
        simp [envDenyRWD] at ha
      rcases List.mem_append.mp hd with hd | hd
      · rcases gitPart_mem hd with rfl | rfl | rfl <;>
          exact matchD_false_of_any hgitmiss
      · exact pk_cred_no_match_lit h c hcall op d hd
    exact ⟨key _ (.inl rfl), key _ (.inr rfl)⟩
  · rintro rfl
    constructor
    · rw [genDoc_decomp_env]
      refine evalDoc_allow_of_tail (matchD_r_of_any henvany) rfl ?_
      intro d hd
      rcases List.mem_cons.mp hd with rfl | hd
      · exact matchD_read_write_only
      rcases List.mem_append.mp hd with hd | hd
      · simp at hd
      rcases List.mem_append.mp hd with hd | hd
      · rcases gitPart_mem hd with rfl | rfl | rfl <;>
          exact matchD_false_of_any hgitmiss
      · exact pk_cred_no_match_lit h c hcall .read d hd
    · rw [genDoc_decomp_env]
      refine evalDoc_deny_of_tail ?_
        ⟨envDenyWD h, by simp [envPart], matchD_w_of_any henvany, rfl⟩
      intro d hd ha
      rcases List.mem_append.mp hd with hd | hd
      · simp only [envPart, if_true, List.mem_cons, List.not_mem_nil,
          or_false] at hd
        rcases hd with rfl | rfl
        · exact matchD_write_read_only
        · simp [envDenyWD] at ha
      rcases List.mem_append.mp hd with hd | hd
      · rcases gitPart_mem hd with rfl | rfl | rfl <;>
          first
            | exact matchD_write_read_only
            | exact matchD_false_of_any hgitmiss
      · exact pk_cred_no_match_lit h c hcall .write d hd

/-- Evaluation of the generator document on files matched by the
`~/.env..*` regex. -/
theorem env_regex_group_eval (m : Mode) (rc env git : Bool)
    (extras : List (List Char)) (h w t : List Char) :
    (env = false →
      evalDoc (genDoc m rc env git extras h w) .read
        (h ++ (cs "/.env." ++ t)) = .deny ∧
      evalDoc (genDoc m rc env git extras h w) .write
        (h ++ (cs "/.env." ++ t)) = .deny) ∧
    (env = true →
      evalDoc (genDoc m rc env git extras h w) .write
        (h ++ (cs "/.env." ++ t)) = .deny ∧
      (¬pkHit h (h ++ (cs "/.env." ++ t)) →
        ¬credHit h (h ++ (cs "/.env." ++ t)) →
        evalDoc (genDoc m rc env git extras h w) .read
          (h ++ (cs "/.env." ++ t)) = .allow)) := by
  have hreg : rmatch [.lit (h ++ cs "/.env."), .any]
      (h ++ (cs "/.env." ++ t)) = true :=
    @rmatch_strip h (cs "/.env.") t [.any] true (rmatch_any_end t)
  have henvany : (envPats h).any (matchPat (h ++ (cs "/.env." ++ t))) =
      true := by
    rw [List.any_eq_true]
    exact ⟨.regex [.lit (h ++ cs "/.env."), .any], by simp [envPats], hreg⟩
  have hgitmiss : (gitPats h).any (matchPat (h ++ (cs "/.env." ++ t))) =
      false := by
    rw [gitPats_eq]
    exact any_literal_false (forall_ne_of_prefix_false t (by decide))
  constructor
  · rintro rfl
    have key : ∀ op : Op, op = .read ∨ op = .write →
        evalDoc (genDoc m rc false git extras h w) op
          (h ++ (cs "/.env." ++ t)) = .deny := by
      intro op hop
      rw [genDoc_decomp_env]
      refine evalDoc_deny_of_tail ?_
        ⟨envDenyRWD h, by simp [envPart], matchD_rw_of_any hop henvany, rfl⟩
      intro d hd ha
      rcases List.mem_append.mp hd with hd | hd
      · simp [envPart] at hd
        subst hd
        simp [envDenyRWD] at ha
      rcases List.mem_append.mp hd with hd | hd
      · rcases gitPart_mem hd with rfl | rfl | rfl <;>
          exact matchD_false_of_any hgitmiss
      rcases List.mem_cons.mp hd with rfl | hd
      · simp [pkDeny] at ha
      rcases List.mem_cons.mp hd with rfl | hd
      · simp [credDeny] at ha
      · simp at hd
    exact ⟨key _ (.inl rfl), key _ (.inr rfl)⟩
  · rintro rfl
    constructor
    · rw [genDoc_decomp_env]
      refine evalDoc_deny_of_tail ?_
        ⟨envDenyWD h, by simp [envPart], matchD_w_of_any henvany, rfl⟩
      intro d hd ha
      rcases List.mem_append.mp hd with hd | hd
      · simp only [envPart, if_true, List.mem_cons, List.not_mem_nil,
          or_false] at hd
        rcases hd with rfl | rfl
        · exact matchD_write_read_only
        · simp [envDenyWD] at ha
      rcases List.mem_append.mp hd with hd | hd
      · rcases gitPart_mem hd with rfl | rfl | rfl <;>
          first
            | exact matchD_write_read_only
            | exact matchD_false_of_any hgitmiss
      rcases List.mem_cons.mp hd with rfl | hd
      · simp [pkDeny] at ha
      rcases List.mem_cons.mp hd with rfl | hd
      · simp [credDeny] at ha
      · simp at hd
    · intro hpk hcred
      rw [genDoc_decomp_env]
      refine evalDoc_allow_of_tail (matchD_r_of_any henvany) rfl ?_
      intro d hd
      rcases List.mem_cons.mp hd with rfl | hd
      · exact matchD_read_write_only
      rcases List.mem_append.mp hd with hd | hd
      · simp at hd
      rcases List.mem_append.mp hd with hd | hd
      · rcases gitPart_mem hd with rfl | rfl | rfl <;>
          exact matchD_false_of_any hgitmiss
      rcases List.mem_cons.mp hd with rfl | hd
      · exact matchD_false_of_any (Bool.eq_false_iff.mpr hpk)
      rcases List.mem_cons.mp hd with rfl | hd
      · exact matchD_false_of_any (Bool.eq_false_iff.mpr hcred)
      · simp at hd

/-- Evaluation of the generator document on `.gitconfig` and `.netrc`. -/
theorem git_lit_group_eval (m : Mode) (rc env git : Bool)
    (extras : List (List Char)) (h w : List Char) :
    ∀ c ∈ [cs "/.gitconfig", cs "/.netrc"],
      (git = false →
        evalDoc (genDoc m rc env git extras h w) .read (h ++ c) = .deny ∧
        evalDoc (genDoc m rc env git extras h w) .write (h ++ c) = .deny) ∧
      (git = true →
        evalDoc (genDoc m rc env git extras h w) .read (h ++ c) = .allow ∧
        evalDoc (genDoc m rc env git extras h w) .write (h ++ c) = .deny) := by
  intro c hc
  have hcall : c ∈ rcTails ++ [cs "/.env", cs "/.envrc", cs "/.gitconfig",
      cs "/.netrc"] := by fin_cases hc <;> decide
  have hgitany : (gitPats h).any (matchPat (h ++ c)) = true := by
    fin_cases hc <;> simp [gitPats, matchPat]
  constructor
  · rintro rfl
    have key : ∀ op : Op, op = .read ∨ op = .write →
        evalDoc (genDoc m rc env false extras h w) op (h ++ c) = .deny := by
      intro op hop
      rw [genDoc_decomp_git]
      refine evalDoc_deny_of_tail ?_
        ⟨gitDenyRWD h, by simp [gitPart], matchD_rw_of_any hop hgitany, rfl⟩
      intro d hd ha
      rcases List.mem_append.mp hd with hd | hd
      · simp [gitPart] at hd
        subst hd
        simp [gitDenyRWD] at ha
      · exact pk_cred_no_match_lit h c hcall op d hd
    exact ⟨key _ (.inl rfl), key _ (.inr rfl)⟩
  · rintro rfl
    constructor
    · rw [genDoc_decomp_git]
      refine evalDoc_allow_of_tail (matchD_r_of_any hgitany) rfl ?_
      intro d hd
      rcases List.mem_cons.mp hd with rfl | hd
      · exact matchD_read_write_only
      rcases List.mem_append.mp hd with hd | hd
      · simp at hd
      · exact pk_cred_no_match_lit h c hcall .read d hd
    · rw [genDoc_decomp_git]
      refine evalDoc_deny_of_tail ?_
        ⟨gitDenyWD h, by simp [gitPart], matchD_w_of_any hgitany, rfl⟩
      intro d hd ha
      rcases List.mem_append.mp hd with hd | hd
      · simp only [gitPart, if_true, List.mem_cons, List.not_mem_nil,
          or_false] at hd
        rcases hd with rfl | rfl
        · exact matchD_write_read_only
        · simp [gitDenyWD] at ha
      · exact pk_cred_no_match_lit h c hcall .write d hd

/-- `.git-credentials` also matches the credential-filename patterns that
the generator emits after the git conditional block, so it is denied for
read and write whatever the toggles. -/
theorem gitcred_eval (m : Mode) (rc env git : Bool)
    (extras : List (List Char)) (h w : List Char) :
    evalDoc (genDoc m rc env git extras h w) .read
        (h ++ cs "/.git-credentials") = .deny ∧
      evalDoc (genDoc m rc env git extras h w) .write
        (h ++ cs "/.git-credentials") = .deny := by
  have hcredany : (credDeny h).pats.any
      (matchPat (h ++ cs "/.git-credentials")) = true := by
    rw [List.any_eq_true]
    refine ⟨.regex [.lit (h ++ cs "/"), .anyNoSlash, .lit (cs "credentials")],
      by simp [credDeny], ?_⟩
    exact @rmatch_strip h (cs "/") (cs ".git-credentials")
      [.anyNoSlash, .lit (cs "credentials")] true (by decide)
  have key : ∀ op : Op, op = .read ∨ op = .write →
      evalDoc (genDoc m rc env git extras h w) op
        (h ++ cs "/.git-credentials") = .deny := by
    intro op hop
    rw [genDoc_decomp]
    refine evalDoc_deny_of_tail ?_
      ⟨credDeny h, by simp, matchD_rw_of_any hop hcredany, rfl⟩
    intro d hd ha
    rcases List.mem_cons.mp hd with rfl | hd
    · simp [pkDeny] at ha
    rcases List.mem_cons.mp hd with rfl | hd
    · simp [credDeny] at ha
    · simp at hd
  exact ⟨key _ (.inl rfl), key _ (.inr rfl)⟩

/-! ## Claim C5 -/

/-- C5, counterexample: with `--allow-git`, reading `~/.git-credentials`
(a file of the git conditional group) still resolves to Deny, because the
credential-filename patterns are emitted after the git block; with
`--allow-env-read`, reading `~/.env.key.pem` — matched by the env group's
`~/.env..*` regex — still resolves to Deny, because it also matches the
later private-key pattern.  The claim's "toggle=true ⇒ Allow(read) for
every file in the group" is false on both. -/
theorem C5_toggle_counterexample :
    evalDoc (genDoc .balanced false false true [] (cs "/home/u")
        (cs "/home/u/work")) .read (cs "/home/u/.git-credentials") = .deny ∧
    evalDoc (genDoc .balanced false true false [] (cs "/home/u")
        (cs "/home/u/work")) .read (cs "/home/u/.env.key.pem") = .deny ∧
    rmatch [.lit (cs "/home/u/.env."), .any] (cs "/home/u/.env.key.pem") =
      true :=
  ⟨by decide, by decide, by decide⟩

/-- C5 (amended): for every mode, toggle combination, extra paths and
directories — shell-rc group: toggle off ⇒ Deny(read ∧ write), toggle on ⇒
Allow(read) ∧ Deny(write); env group: the same for `.env`/`.envrc`, and
for `~/.env..*` regex files the toggle-on Allow(read) holds only when the
file does not also match a private-key or credential-filename pattern
(write is denied regardless); git group: the same split for `.gitconfig`
and `.netrc`, while `.git-credentials` is denied for read and write under
every toggle combination, because it matches the credential-filename
patterns emitted later.  In no case is write allowed. -/
theorem C5_toggle_split (m : Mode) (rc env git : Bool)
    (extras : List (List Char)) (h w : List Char) :
    (∀ c ∈ rcTails,
      (rc = false →
        evalDoc (genDoc m rc env git extras h w) .read (h ++ c) = .deny ∧
        evalDoc (genDoc m rc env git extras h w) .write (h ++ c) = .deny) ∧
      (rc = true →
        evalDoc (genDoc m rc env git extras h w) .read (h ++ c) = .allow ∧
        evalDoc (genDoc m rc env git extras h w) .write (h ++ c) = .deny)) ∧
    (∀ c ∈ [cs "/.env", cs "/.envrc"],
      (env = false →
        evalDoc (genDoc m rc env git extras h w) .read (h ++ c) = .deny ∧
        evalDoc (genDoc m rc env git extras h w) .write (h ++ c) = .deny) ∧
      (env = true →
        evalDoc (genDoc m rc env git extras h w) .read (h ++ c) = .allow ∧
        evalDoc (genDoc m rc env git extras h w) .write (h ++ c) = .deny)) ∧
    (∀ t,
      (env = false →
        evalDoc (genDoc m rc env git extras h w) .read
          (h ++ (cs "/.env." ++ t)) = .deny ∧
        evalDoc (genDoc m rc env git extras h w) .write
          (h ++ (cs "/.env." ++ t)) = .deny) ∧
      (env = true →
        evalDoc (genDoc m rc env git extras h w) .write
          (h ++ (cs "/.env." ++ t)) = .deny ∧
        (¬pkHit h (h ++ (cs "/.env." ++ t)) →
          ¬credHit h (h ++ (cs "/.env." ++ t)) →
          evalDoc (genDoc m rc env git extras h w) .read
            (h ++ (cs "/.env." ++ t)) = .allow))) ∧
    (∀ c ∈ [cs "/.gitconfig", cs "/.netrc"],
      (git = false →
        evalDoc (genDoc m rc env git extras h w) .read (h ++ c) = .deny ∧
        evalDoc (genDoc m rc env git extras h w) .write (h ++ c) = .deny) ∧
      (git = true →
        evalDoc (genDoc m rc env git extras h w) .read (h ++ c) = .allow ∧
        evalDoc (genDoc m rc env git extras h w) .write (h ++ c) = .deny)) ∧
    (evalDoc (genDoc m rc env git extras h w) .read
        (h ++ cs "/.git-credentials") = .deny ∧
      evalDoc (genDoc m rc env git extras h w) .write
        (h ++ cs "/.git-credentials") = .deny) :=
  ⟨rc_group_eval m rc env git extras h w,
   env_lit_group_eval m rc env git extras h w,
   fun t => env_regex_group_eval m rc env git extras h w t,
   git_lit_group_eval m rc env git extras h w,
   gitcred_eval m rc env git extras h w⟩

/-- C5, witness: with all three toggles on, `~/.bashrc` reads Allow and
writes Deny, `~/.env.local` reads Allow, `~/.gitconfig` reads Allow, and
`~/.git-credentials` reads Deny. -/
theorem C5_toggle_split_witness :
    evalDoc (genDoc .balanced true true true [] (cs "/home/u")
        (cs "/home/u/work")) .read (cs "/home/u" ++ cs "/.bashrc") =
      .allow ∧
    evalDoc (genDoc .balanced true true true [] (cs "/home/u")
        (cs "/home/u/work")) .write (cs "/home/u" ++ cs "/.bashrc") =
      .deny ∧
    evalDoc (genDoc .balanced true true true [] (cs "/home/u")
        (cs "/home/u/work")) .read
        (cs "/home/u" ++ (cs "/.env." ++ cs "local")) = .allow ∧
    evalDoc (genDoc .balanced true true true [] (cs "/home/u")
        (cs "/home/u/work")) .read (cs "/home/u" ++ cs "/.gitconfig") =
      .allow ∧
    evalDoc (genDoc .balanced true true true [] (cs "/home/u")
        (cs "/home/u/work")) .read (cs "/home/u" ++ cs "/.git-credentials") =
      .deny := by
  have hc5 := C5_toggle_split .balanced true true true [] (cs "/home/u")
    (cs "/home/u/work")
  exact ⟨((hc5.1 (cs "/.bashrc") (by decide)).2 rfl).1,
    ((hc5.1 (cs "/.bashrc") (by decide)).2 rfl).2,
    ((hc5.2.2.1 (cs "local")).2 rfl).2 (by decide) (by decide),
    ((hc5.2.2.2.1 (cs "/.gitconfig") (by decide)).2 rfl).1,
    hc5.2.2.2.2.1⟩

/-! ## Mode write-scope machinery (claim C6) -/

/-- A path of the form `home ++ "/..."` lies below the home directory. -/
theorem subpathMatch_happend (h : List Char) (c' : List Char) :
    subpathMatch h (h ++ ('/' :: c')) = true := by
  simp only [subpathMatch, Bool.or_eq_true]
  refine .inl (.inr ?_)
  rw [isPrefixOf_append_left h ['/'] ('/' :: c')]
  simp [List.isPrefixOf]

/-- A matching regex with a literal head pins that head as a prefix of the
path. -/
theorem rmatch_lit_head_prefix {a p : List Char} {rs : List RSeg}
    (hm : rmatch (.lit a :: rs) p = true) : a <+: p := by
  simp only [rmatch, Bool.and_eq_true] at hm
  rw [← List.isPrefixOf_iff_prefix]
  exact hm.1

/-- Every matching deny of the generator's sensitive layer concerns a path
below the home directory: all its deny patterns are home-anchored. -/
theorem sens_deny_match_under_home {rc env git : Bool} {h p : List Char}
    {op : Op} {d : Directive} (hd : d ∈ genSensitive rc env git h)
    (hden : d.action = .deny) (hm : matchD op p d = true) :
    subpathMatch h p = true := by
  have hany : d.pats.any (matchPat p) = true := by
    simp only [matchD, Bool.and_eq_true] at hm
    exact hm.2
  rw [List.any_eq_true] at hany
  obtain ⟨pat, hpat, hpm⟩ := hany
  have from_lit : ∀ c' : List Char, pat = .literal (h ++ ('/' :: c')) →
      subpathMatch h p = true := by
    rintro c' rfl
    simp only [matchPat, decide_eq_true_eq] at hpm
    rw [hpm]
    exact subpathMatch_happend h c'
  have from_sub : ∀ x' : List Char, pat = .subpath (h ++ ('/' :: x')) →
      subpathMatch h p = true := by
    rintro x' rfl
    exact subpathMatch_home_of_sub hpm
  have from_re : ∀ (y : List Char) (rs : List RSeg),
      pat = .regex (.lit (h ++ ('/' :: y)) :: rs) →
      subpathMatch h p = true := by
    rintro y rs rfl
    simp only [matchPat] at hpm
    obtain ⟨t, ht⟩ := rmatch_lit_head_prefix hpm
    rw [← ht, show (h ++ ('/' :: y)) ++ t = h ++ ('/' :: (y ++ t)) by simp]
    exact subpathMatch_happend h _
  rcases genSensitive_mem_cases hd with
    rfl | rfl | rfl | rfl | rfl | rfl | rfl | rfl | rfl | rfl | rfl | rfl |
      rfl | rfl
  · simp only [sshDeny, List.mem_singleton] at hpat
    exact from_sub _ hpat
  · simp only [cloudDeny, List.mem_cons, List.not_mem_nil, or_false] at hpat
    rcases hpat with rfl | rfl | rfl | rfl <;> exact from_sub _ rfl
  · simp only [gpgDeny, List.mem_singleton] at hpat
    exact from_sub _ hpat
  · simp [rcAllowD] at hden
  · simp only [rcDenyWD, rcPats, List.mem_cons, List.not_mem_nil, or_false]
      at hpat
    rcases hpat with rfl | rfl | rfl | rfl | rfl | rfl | rfl | rfl | rfl |
      rfl <;> exact from_lit _ rfl
  · simp only [rcDenyRWD, rcPats, List.mem_cons, List.not_mem_nil, or_false]
      at hpat
    rcases hpat with rfl | rfl | rfl | rfl | rfl | rfl | rfl | rfl | rfl |
      rfl <;> exact from_lit _ rfl
  · simp [envAllowD] at hden
  · simp only [envDenyWD, envPats, List.mem_cons, List.not_mem_nil,
      or_false] at hpat
    rcases hpat with rfl | rfl | rfl
    · exact from_lit _ rfl
    · exact from_lit _ rfl
    · exact from_re _ _ rfl
  · simp only [envDenyRWD, envPats, List.mem_cons, List.not_mem_nil,
      or_false] at hpat
    rcases hpat with rfl | rfl | rfl
    · exact from_lit _ rfl
    · exact from_lit _ rfl
    · exact from_re _ _ rfl
  · simp [gitAllowD] at hden
  · simp only [gitDenyWD, gitPats, List.mem_cons, List.not_mem_nil,
      or_false] at hpat
    rcases hpat with rfl | rfl | rfl <;> exact from_lit _ rfl
  · simp only [gitDenyRWD, gitPats, List.mem_cons, List.not_mem_nil,
      or_false] at hpat
    rcases hpat with rfl | rfl | rfl <;> exact from_lit _ rfl
  · simp only [pkDeny, List.mem_cons, List.not_mem_nil, or_false] at hpat
    rcases hpat with rfl | rfl | rfl | rfl | rfl | rfl | rfl | rfl <;>
      exact from_re _ _ rfl
  · simp only [credDeny, List.mem_cons, List.not_mem_nil, or_false] at hpat
    rcases hpat with rfl | rfl | rfl | rfl | rfl <;> exact from_re _ _ rfl

/-- Mode write scope: strict denies writes on the whole filesystem outside
the working directory, the tmp locations and the `__pycache__` patterns;
balanced does so only inside the home directory and never denies a write
outside it; permissive emits no mode directives, so the write verdict is
exactly that of the sensitive-protection layer alone.  (No extra
allow-paths are declared.) -/
theorem mode_write_scope (rc env git : Bool) (h w : List Char) :
    (∀ p q, p = '/' :: q →
      subpathMatch w p = false →
      tmpAllowWrite.pats.any (matchPat p) = false →
      (pycacheAllowWrite h).pats.any (matchPat p) = false →
      evalDoc (genDoc .strict rc env git [] h w) .write p = .deny) ∧
    (∀ p, subpathMatch h p = true →
      subpathMatch w p = false →
      tmpAllowWrite.pats.any (matchPat p) = false →
      (pycacheAllowWrite h).pats.any (matchPat p) = false →
      evalDoc (genDoc .balanced rc env git [] h w) .write p = .deny) ∧
    (∀ p, subpathMatch h p = false →
      evalDoc (genDoc .balanced rc env git [] h w) .write p = .allow) ∧
    modeRules .permissive h w = [] ∧
    (∀ p, evalDoc (genDoc .permissive rc env git [] h w) .write p =
      evalDoc (genSensitive rc env git h) .write p) := by
  refine ⟨?_, ?_, ?_, rfl, fun p => rfl⟩
  · rintro p q rfl hw htmp hpyc
    have hroot : subpathMatch (cs "/") ('/' :: q) = true := by
      simp only [subpathMatch, Bool.or_eq_true, Bool.and_eq_true,
        decide_eq_true_eq]
      refine .inr ⟨rfl, ?_⟩
      simp [List.isPrefixOf]
    refine evalDoc_deny_of_tail (A := [localAllowRead h])
      ?_ ⟨⟨.deny, [.write], [.subpath h, .subpath (cs "/")]⟩, by simp,
        matchD_w_of_any (by simp [matchPat, hroot]), rfl⟩
    intro d hd ha
    rcases List.mem_cons.mp hd with rfl | hd
    · simp at ha
    rcases List.mem_cons.mp hd with rfl | hd
    · exact matchD_false_of_any (by simp [workAllowWrite, matchPat, hw])
    rcases List.mem_cons.mp hd with rfl | hd
    · exact matchD_false_of_any hpyc
    rcases List.mem_cons.mp hd with rfl | hd
    · exact matchD_false_of_any htmp
    · rcases genSensitive_allow_mem hd ha with rfl | rfl | rfl <;>
        exact matchD_write_read_only
  · intro p hh hw htmp hpyc
    refine evalDoc_deny_of_tail (A := [localAllowRead h])
      ?_ ⟨⟨.deny, [.write], [.subpath h]⟩, by simp,
        matchD_w_of_any (by simp [matchPat, hh]), rfl⟩
    intro d hd ha
    rcases List.mem_cons.mp hd with rfl | hd
    · simp at ha
    rcases List.mem_cons.mp hd with rfl | hd
    · exact matchD_false_of_any (by simp [workAllowWrite, matchPat, hw])
    rcases List.mem_cons.mp hd with rfl | hd
    · exact matchD_false_of_any hpyc
    rcases List.mem_cons.mp hd with rfl | hd
    · exact matchD_false_of_any htmp
    · rcases genSensitive_allow_mem hd ha with rfl | rfl | rfl <;>
        exact matchD_write_read_only
  · intro p hh
    apply evalDoc_allow_of_no_deny
    intro d hd hden
    rw [← Bool.not_eq_true]
    intro hm
    rcases List.mem_cons.mp hd with rfl | hd
    · simp [localAllowRead] at hden
    rcases List.mem_cons.mp hd with rfl | hd
    · simp only [matchD, Bool.and_eq_true, List.any_cons, List.any_nil,
        Bool.or_false, matchPat] at hm
      rw [hh] at hm
      simp at hm
    rcases List.mem_cons.mp hd with rfl | hd
    · simp [workAllowWrite] at hden
    rcases List.mem_cons.mp hd with rfl | hd
    · simp [pycacheAllowWrite] at hden
    rcases List.mem_cons.mp hd with rfl | hd
    · simp [tmpAllowWrite] at hden
    · rw [sens_deny_match_under_home hd hden hm] at hh
      exact absurd hh (by simp)

/-! ## Claim C6 -/

/-- C6: mode write scope under last-match-wins, with no extra allow-paths
declared.  Strict: every absolute path outside the working directory, the
tmp locations and the `__pycache__` patterns is denied for write.
Balanced: the same denial holds only for paths below the home directory,
and no write anywhere outside the home directory is ever denied.
Permissive: the mode layer emits no directives, and the write verdict of
the whole document is exactly that of the sensitive-protection layer
alone. -/
theorem C6_mode_write_scope (rc env git : Bool) (h w : List Char) :
    (∀ p q, p = '/' :: q →
      subpathMatch w p = false →
      tmpAllowWrite.pats.any (matchPat p) = false →
      (pycacheAllowWrite h).pats.any (matchPat p) = false →
      evalDoc (genDoc .strict rc env git [] h w) .write p = .deny) ∧
    (∀ p, subpathMatch h p = true →
      subpathMatch w p = false →
      tmpAllowWrite.pats.any (matchPat p) = false →
      (pycacheAllowWrite h).pats.any (matchPat p) = false →
      evalDoc (genDoc .balanced rc env git [] h w) .write p = .deny) ∧
    (∀ p, subpathMatch h p = false →
      evalDoc (genDoc .balanced rc env git [] h w) .write p = .allow) ∧
    modeRules .permissive h w = [] ∧
    (∀ p, evalDoc (genDoc .permissive rc env git [] h w) .write p =
      evalDoc (genSensitive rc env git h) .write p) :=
  mode_write_scope rc env git h w

/-- C6, witness: in strict mode `/etc/passwd` is write-denied; in balanced
mode `~/other` is write-denied but `/etc/passwd` is writable; in
permissive mode the verdict on `~/other` equals the sensitive layer's. -/
theorem C6_mode_write_scope_witness :
    evalDoc (genDoc .strict false false false [] (cs "/home/u")
        (cs "/home/u/work")) .write (cs "/etc/passwd") = .deny ∧
    evalDoc (genDoc .balanced false false false [] (cs "/home/u")
        (cs "/home/u/work")) .write (cs "/home/u/other") = .deny ∧
    evalDoc (genDoc .balanced false false false [] (cs "/home/u")
        (cs "/home/u/work")) .write (cs "/etc/passwd") = .allow ∧
    evalDoc (genDoc .permissive false false false [] (cs "/home/u")
        (cs "/home/u/work")) .write (cs "/home/u/other") =
      evalDoc (genSensitive false false false (cs "/home/u")) .write
        (cs "/home/u/other") := by
  have hm := C6_mode_write_scope false false false (cs "/home/u")
    (cs "/home/u/work")
  exact ⟨hm.1 (cs "/etc/passwd") (cs "etc/passwd") rfl (by decide)
      (by decide) (by decide),
    hm.2.1 (cs "/home/u/other") (by decide) (by decide) (by decide)
      (by decide),
    hm.2.2.1 (cs "/etc/passwd") (by decide),
    hm.2.2.2.2 (cs "/home/u/other")⟩

/-! ## Claim C3 -/

/-- C3, counterexample: the generator's sensitive-protection layer (here
with all toggles off, at a concrete home) consists of deny directives only
— it contains no Allow(read) carve-out at all — and reading
`~/.ssh/config` under the generator's document resolves to Deny. -/
theorem C3_no_carveout_counterexample :
    (∀ d ∈ genSensitive false false false (cs "/home/u"),
      d.action = .deny) ∧
    evalDoc (genDoc .balanced false false false [] (cs "/home/u")
        (cs "/home/u/work")) .read (cs "/home/u/.ssh/config") = .deny :=
  ⟨by decide, by decide⟩

/-- C3 (amended): only the launcher's sensitive layer has the carve-out:
it denies read/write on the SSH subtree and, directly after that deny,
allows read of exactly the `.ssh` directory literal itself, `config`,
`known_hosts`, `known_hosts.old` and `*.pub` files; under last-match
evaluation those names read as Allow and all other subtree paths as Deny,
writes deny throughout.  The generator's sensitive layer contains no
carve-out and denies reads of the entire subtree for every toggle
combination. -/
theorem C3_launcher_carveout (h : List Char) (sock : Option (List Char)) :
    (∃ pre post,
      cliCommon h sock = pre ++ sshDeny h :: sshCarveAllow h :: post) ∧
    sshCarveAllow h = ⟨.allow, [.read],
      [.literal (h ++ cs "/.ssh"), .literal (h ++ cs "/.ssh/config"),
       .literal (h ++ cs "/.ssh/known_hosts"),
       .literal (h ++ cs "/.ssh/known_hosts.old"),
       .regex [.lit (h ++ cs "/.ssh/"), .any, .lit (cs ".pub")]]⟩ ∧
    (∀ s, evalDoc (cliCommon h sock) .write (h ++ (cs "/.ssh/" ++ s)) =
      .deny) ∧
    evalDoc (cliCommon h sock) .read (h ++ cs "/.ssh/config") = .allow ∧
    evalDoc (cliCommon h sock) .read (h ++ cs "/.ssh/known_hosts") = .allow ∧
    evalDoc (cliCommon h sock) .read (h ++ cs "/.ssh/known_hosts.old") =
      .allow ∧
    evalDoc (cliCommon h sock) .read (h ++ cs "/.ssh/id_rsa.pub") = .allow ∧
    (∀ s, s ≠ cs "config" → s ≠ cs "known_hosts" → s ≠ cs "known_hosts.old" →
      rmatch [.any, .lit (cs ".pub")] s = false →
      evalDoc (cliCommon h sock) .read (h ++ (cs "/.ssh/" ++ s)) = .deny) ∧
    (∀ rc env git : Bool, ∀ s,
      evalDoc (genSensitive rc env git h) .read (h ++ (cs "/.ssh/" ++ s)) =
        .deny) :=
  launcher_ssh_carveout h sock

/-- C3, witness: at a concrete home with no forwarding socket, the
launcher's layer allows reading `~/.ssh/config` and denies reading
`~/.ssh/id_ed25519`, and the generator's layer (all toggles on) denies
reading `~/.ssh/config`. -/
theorem C3_launcher_carveout_witness :
    evalDoc (cliCommon (cs "/home/u") none) .read
        (cs "/home/u" ++ cs "/.ssh/config") = .allow ∧
    evalDoc (cliCommon (cs "/home/u") none) .read
        (cs "/home/u" ++ (cs "/.ssh/" ++ cs "id_ed25519")) = .deny ∧
    evalDoc (genSensitive true true true (cs "/home/u")) .read
        (cs "/home/u" ++ (cs "/.ssh/" ++ cs "config")) = .deny :=
  ⟨(C3_launcher_carveout (cs "/home/u") none).2.2.2.1,
   (C3_launcher_carveout (cs "/home/u") none).2.2.2.2.2.2.2.1
     (cs "id_ed25519") (by decide) (by decide) (by decide) (by decide),
   (C3_launcher_carveout (cs "/home/u") none).2.2.2.2.2.2.2.2 true true true
     (cs "config")⟩

/-! ## Claim C1 -/

/-- C1, counterexample: the ordering invariant fails as stated.  In the
launcher's assembled document the sensitive-protection denies are emitted
first — the SSH deny sits at index 0 and the (project/agent) non-sensitive
directives after it — and in the generator's document the conditional
directives (here the rc deny) come after the SSH/cloud/GPG denies, so the
sensitive denies do not all appear strictly after every other layer's
directives. -/
theorem C1_sensitiveLast_counterexample :
    ¬ sensitiveLast (cliDoc (cs "/home/u") (cs "/home/u/work") (cs "") none)
        (cliSensDenies (cs "/home/u")) ∧
    ¬ sensitiveLast
        (genDoc .balanced false false false [] (cs "/home/u")
          (cs "/home/u/work"))
        (genSensDenies (cs "/home/u")) := by
  constructor
  · intro hc
    have hlt := hc ⟨0, by decide⟩ ⟨1, by decide⟩ (by decide) (by decide)
    exact absurd hlt (by decide)
  · intro hc
    have hlt := hc ⟨5, by decide⟩ ⟨8, by decide⟩ (by decide) (by decide)
    exact absurd hlt (by decide)

/-- C1 (amended): in the generator's document, every directive of the five
sensitive deny groups appears strictly after every mode-layer and
custom-paths directive, for every mode, toggle combination and extra-path
list, and the private-key and credential-filename denies are the final two
directives of the document; the conditional rc/env/git directives are
emitted inside the final layer between the directory denies and the pattern
denies, and the launcher's document does not satisfy the ordering at all
(its sensitive denies precede the project and agent layers, see the
counterexample). -/
theorem C1_generator_ordering (m : Mode) (rc env git : Bool)
    (extras : List (List Char)) (h w : List Char) :
    (∀ i j : Fin (genDoc m rc env git extras h w).length,
      (genDoc m rc env git extras h w).get i ∈ genSensDenies h →
      (genDoc m rc env git extras h w).get j ∈
        modeRules m h w ++ customRules extras →
      j < i) ∧
    ∃ front, genDoc m rc env git extras h w =
      front ++ [pkDeny h, credDeny h] :=
  generator_ordering m rc env git extras h w

/-- C1, witness: the ordering theorem applied to a concrete document — in
balanced mode with no toggles the SSH deny (index 5) sits after the
mode-layer directive at index 0. -/
theorem C1_generator_ordering_witness :
    ((⟨0, by decide⟩ : Fin (genDoc .balanced false false false []
        (cs "/home/u") (cs "/home/u/work")).length) <
      ⟨5, by decide⟩) ∧
    ∃ front, genDoc .balanced false false false [] (cs "/home/u")
        (cs "/home/u/work") =
      front ++ [pkDeny (cs "/home/u"), credDeny (cs "/home/u")] :=
  ⟨(C1_generator_ordering .balanced false false false [] (cs "/home/u")
      (cs "/home/u/work")).1 ⟨5, by decide⟩ ⟨0, by decide⟩ (by decide)
      (by decide),
   (C1_generator_ordering .balanced false false false [] (cs "/home/u")
      (cs "/home/u/work")).2⟩

/-! ## Claim C2 -/

/-- C2, counterexample: in the launcher's document, `~/work/id_rsa` —
a path matching the private-key pattern `~/.*_rsa$` and lying inside the
working directory `~/work` — resolves to Allow for write (the project
layer's workdir allow is emitted after the sensitive denies), and
`~/.git-credentials` — matching the credential-filename patterns —
resolves to Allow for read (the project layer's git-config read allow is
emitted after the sensitive denies). -/
theorem C2_launcher_escape_counterexample :
    evalDoc (cliDoc (cs "/home/u") (cs "/home/u/work") (cs "") none) .write
        (cs "/home/u/work/id_rsa") = .allow ∧
    pkHit (cs "/home/u") (cs "/home/u/work/id_rsa") ∧
    subpathMatch (cs "/home/u/work") (cs "/home/u/work/id_rsa") = true ∧
    evalDoc (cliDoc (cs "/home/u") (cs "/home/u/work") (cs "") none) .read
        (cs "/home/u/.git-credentials") = .allow ∧
    credHit (cs "/home/u") (cs "/home/u/.git-credentials") :=
  ⟨by decide, by decide, by decide, by decide, by decide⟩

/-- C2 (amended): for every mode, every toggle combination, every list of
extra allow-paths and every working directory, the document produced by the
profile generator resolves to Deny for both read and write on every literal
path under the SSH directory that is not a carve-out name, and on every
path matching a cloud-credential, GPG, private-key or credential-filename
pattern — including paths inside an extra allow-path or the working
directory.  The launcher's document does not satisfy this (see the
counterexample). -/
theorem C2_generator_always_denies (m : Mode) (rc env git : Bool)
    (extras : List (List Char)) (h w p : List Char)
    (hp : (∃ s, p = h ++ (cs "/.ssh/" ++ s) ∧ ¬sshCarveName s) ∨
      cloudHit h p ∨ gpgHit h p ∨ pkHit h p ∨ credHit h p) :
    evalDoc (genDoc m rc env git extras h w) .read p = .deny ∧
      evalDoc (genDoc m rc env git extras h w) .write p = .deny :=
  generator_always_denies m rc env git extras h w p hp

/-- C2, witness: the always-deny theorem applied to `~/.ssh/id_rsa` in the
generator's balanced document with all three toggles on and the home
directory itself declared as an extra allow-path. -/
theorem C2_generator_always_denies_witness :
    evalDoc (genDoc .balanced true true true [cs "/home/u"] (cs "/home/u")
        (cs "/home/u/work")) .read (cs "/home/u/.ssh/id_rsa") = .deny ∧
    evalDoc (genDoc .balanced true true true [cs "/home/u"] (cs "/home/u")
        (cs "/home/u/work")) .write (cs "/home/u/.ssh/id_rsa") = .deny :=
  C2_generator_always_denies .balanced true true true [cs "/home/u"]
    (cs "/home/u") (cs "/home/u/work") (cs "/home/u/.ssh/id_rsa")
    (.inl ⟨cs "id_rsa", by decide, by decide⟩)

/-- Claim C4, counterexample: with a nonexistent working directory, the
generator does not fail fast — after the prompt response `" Y "` (stripped
and lowercased to `y`) it produces a rule document anyway. -/
theorem C4_failfast_counterexample :
    (generatorMainDoc false (cs " Y ") true .strict false false false []
      (cs "/home/u") (cs "/home/u/work")).isSome = true := by decide

/-- Claim C4, amended: if the home directory cannot be determined, neither
entry point produces a document (the exception propagates).  A nonexistent
working directory, however, is not fail-fast: the generator prompts and
produces the document exactly when the stripped, lowercased response is
`y` or `yes` (exiting with no document otherwise), and the launcher
performs no existence check at all — its output is independent of whether
the working directory exists. -/
theorem C4_failfast (resp : List Char) (m : Mode) (rc env git : Bool)
    (extras : List (List Char)) (h w agent : List Char)
    (sock : Option (List Char)) :
    generatorMainDoc false resp false m rc env git extras h w = none ∧
    generatorMainDoc true resp false m rc env git extras h w = none ∧
    cliMainDoc false true h w agent sock = none ∧
    cliMainDoc false false h w agent sock = none ∧
    (generatorMainDoc false resp true m rc env git extras h w ≠ none ↔
      (normResponse resp = cs "y" ∨ normResponse resp = cs "yes")) ∧
    cliMainDoc true false h w agent sock = cliMainDoc true true h w agent sock := by
  refine ⟨?_, ?_, rfl, rfl, ?_, rfl⟩
  · by_cases hg : generatorProceeds false resp = true <;>
      simp [generatorMainDoc, hg]
  · simp [generatorMainDoc, generatorProceeds]
  · by_cases h1 : normResponse resp = cs "y" <;>
      by_cases h2 : normResponse resp = cs "yes" <;>
        simp [generatorMainDoc, generatorProceeds, h1, h2]

/-- Claim C4, concrete instance: response `n` aborts generation when the
working directory is missing, and the launcher's output never depends on
its existence. -/
theorem C4_failfast_witness :
    generatorMainDoc false (cs "n") false .strict false false false []
        (cs "/home/u") (cs "/home/u/work") = none ∧
    generatorMainDoc true (cs "n") false .strict false false false []
        (cs "/home/u") (cs "/home/u/work") = none ∧
    cliMainDoc false true (cs "/home/u") (cs "/home/u/work") (cs "claude")
        none = none ∧
    cliMainDoc false false (cs "/home/u") (cs "/home/u/work") (cs "claude")
        none = none ∧
    (generatorMainDoc false (cs "n") true .strict false false false []
        (cs "/home/u") (cs "/home/u/work") ≠ none ↔
      (normResponse (cs "n") = cs "y" ∨ normResponse (cs "n") = cs "yes")) ∧
    cliMainDoc true false (cs "/home/u") (cs "/home/u/work") (cs "claude")
        none =
      cliMainDoc true true (cs "/home/u") (cs "/home/u/work") (cs "claude")
        none :=
  C4_failfast (cs "n") .strict false false false [] (cs "/home/u")
    (cs "/home/u/work") (cs "claude") none

/-- Claim C7: once the profile artifact is written, the `finally` block's
deletion attempt runs on every exit path — normal child completion
(`sys.exit(returncode)`), non-zero child exit, or an exception raised
before the child starts — and the unlink's own outcome never changes the
launch's primary outcome: the result is the child outcome, identical
whether the unlink succeeds or fails. -/
theorem C7_artifact_cleanup (found : Bool) (shell : List Char)
    (args : List (List Char)) (child : Except Unit Int)
    (unlink unlink2 : Except Unit Unit) :
    (launchAfterWrite found shell args child unlink).1 = child ∧
    (launchAfterWrite found shell args child unlink).2 = true ∧
    launchAfterWrite found shell args child unlink =
      launchAfterWrite found shell args child unlink2 := by
  cases unlink <;> cases unlink2 <;>
    exact ⟨rfl, rfl, rfl⟩

/-- Claim C9: profile generation is deterministic — two generator runs
whose options agree on everything the generator reads (mode, working
directory, extra paths, toggles) and on the home directory produce the
same document even if other options (the output path) differ; the
document printed under `--dry-run` is the one `save()` writes; and the
launcher's `--dry-run` output equals the content it writes to the
temporary artifact for the same options and environment facts. -/
theorem C9_determinism (o1 o2 : GenOptions) (home : List Char)
    (hm : o1.mode = o2.mode) (hw : o1.workDir = o2.workDir)
    (hp : o1.allowedPaths = o2.allowedPaths)
    (hg : o1.allowGit = o2.allowGit) (hr : o1.allowRcRead = o2.allowRcRead)
    (he : o1.allowEnvRead = o2.allowEnvRead) :
    generate o1 home = generate o2 home ∧
    (∀ (o : GenOptions) (home2 : List Char),
      generatorDryRunOutput o home2 = generatorSavedContent o home2) ∧
    (∀ (o : CliOptions) (home2 : List Char) (sock : Option (List Char)),
      launcherDryRunOutput o home2 sock = launcherWrittenContent o home2 sock) := by
  refine ⟨?_, fun _ _ => rfl, fun _ _ _ => rfl⟩
  unfold generate
  rw [hm, hw, hp, hg, hr, he]

/-- Claim C9, concrete instance: two option records differing only in the
output path generate the same document. -/
theorem C9_determinism_witness :
    generate ⟨cs "/tmp/a.sb", .strict, cs "/home/u/work", [], false, false,
        false⟩ (cs "/home/u") =
      generate ⟨cs "/tmp/b.sb", .strict, cs "/home/u/work", [], false, false,
        false⟩ (cs "/home/u") :=
  (C9_determinism ⟨cs "/tmp/a.sb", .strict, cs "/home/u/work", [], false,
    false, false⟩ ⟨cs "/tmp/b.sb", .strict, cs "/home/u/work", [], false,
    false, false⟩ (cs "/home/u") rfl rfl rfl rfl rfl rfl).1

/-- Claim C10: the launcher's profile content is independent of the
`--mode` option — two invocations differing only in the mode, with the
same working directory, home, agent and forwarding-socket fact, produce
identical profiles. -/
theorem C10_mode_independent (m1 m2 : Mode) (v d : Bool)
    (agent workDir home : List Char) (sock : Option (List Char)) :
    launcherProfile ⟨v, m1, agent, workDir, d⟩ home sock =
      launcherProfile ⟨v, m2, agent, workDir, d⟩ home sock := rfl

/-! ## Claim C8: command resolution and the quoting round trip -/

/-- A safe character is not a blank, quote, or backslash. -/
theorem safe_not_special {c : Char} (hc : safeChar c = true) :
    ¬(c = ' ' ∨ c = '\t' ∨ c = '\n') ∧ c ≠ sq ∧ c ≠ dq ∧ c ≠ '\\' := by
  refine ⟨fun h => ?_, fun h => ?_, fun h => ?_, fun h => ?_⟩
  · rcases h with h | h | h <;> subst h <;> exact absurd hc (by decide)
  all_goals subst h; exact absurd hc (by decide)

/-- Unescaping consumes a single-quoted escaped body back into the token. -/
theorem unesc_escBody (s : List Char) :
    ∀ (rest acc : List Char) (st : Bool),
      unesc (escBody s ++ sq :: rest) acc st .squote =
        unesc rest (acc ++ s) true .norm := by
  induction s with
  | nil => intro rest acc st; simp [escBody, unesc]
  | cons c s' IH =>
    intro rest acc st
    by_cases hc : c = sq
    · subst hc
      show unesc ((escBody (sq :: s')) ++ sq :: rest) acc st .squote = _
      rw [show escBody (sq :: s') = [sq, dq, sq, dq, sq] ++ escBody s' from by
        simp [escBody]]
      simp only [List.append_assoc, List.cons_append, List.nil_append]
      rw [show unesc (sq :: (dq :: (sq :: (dq :: (sq :: (escBody s' ++ sq :: rest))))))
            acc st .squote =
          unesc (escBody s' ++ sq :: rest) (acc ++ [sq]) true .squote from by
        simp [unesc, sq, dq]]
      rw [IH]
      simp
    · show unesc ((escBody (c :: s')) ++ sq :: rest) acc st .squote = _
      rw [show escBody (c :: s') = c :: escBody s' from by simp [escBody, hc]]
      rw [show unesc ((c :: escBody s') ++ sq :: rest) acc st .squote =
          unesc (escBody s' ++ sq :: rest) (acc ++ [c]) true .squote from by
        simp [unesc, hc]]
      rw [IH]
      simp

/-- Unescaping consumes a bare run of safe characters into the token. -/
theorem unesc_safe_run {s : List Char} (hall : s.all safeChar = true) :
    ∀ (rest acc : List Char) (st : Bool), s ≠ [] →
      unesc (s ++ rest) acc st .norm = unesc rest (acc ++ s) true .norm := by
  induction s with
  | nil => intro _ _ _ hne; exact absurd rfl hne
  | cons c s' IH =>
    intro rest acc st _
    simp only [List.all_cons, Bool.and_eq_true] at hall
    obtain ⟨hc, hs'⟩ := hall
    obtain ⟨h1, h2, h3, h4⟩ := safe_not_special hc
    rw [show unesc ((c :: s') ++ rest) acc st .norm =
        unesc (s' ++ rest) (acc ++ [c]) true .norm from by
      simp [unesc, h1, h2, h3, h4]]
    by_cases hs : s' = []
    · subst hs; simp
    · rw [IH hs' rest (acc ++ [c]) true hs]
      simp

/-- Unescaping consumes one quoted argument into one complete token. -/
theorem unesc_shQuote (a : List Char) (rest acc : List Char) (st : Bool) :
    unesc (shQuote a ++ rest) acc st .norm = unesc rest (acc ++ a) true .norm := by
  unfold shQuote
  by_cases ha : a = []
  · subst ha
    simp [unesc, sq]
  · rw [if_neg ha]
    by_cases hsafe : a.all safeChar = true
    · rw [if_pos hsafe]
      exact unesc_safe_run hsafe rest acc st ha
    · rw [if_neg hsafe]
      rw [show (sq :: (escBody a ++ [sq])) ++ rest =
          sq :: (escBody a ++ sq :: rest) from by simp]
      rw [show unesc (sq :: (escBody a ++ sq :: rest)) acc st .norm =
          unesc (escBody a ++ sq :: rest) acc true .squote from by
        simp [unesc, sq]]
      rw [unesc_escBody]

/-- Unescaping the space-joined quoting of an argument list reconstructs
the list exactly. -/
theorem unescape_shJoin (args : List (List Char)) :
    unescape (shJoin args) = args := by
  unfold unescape
  induction args with
  | nil => simp [shJoin, unesc]
  | cons a args' IH =>
    cases args' with
    | nil =>
      show unesc (shJoin [a]) [] false .norm = [a]
      rw [show shJoin [a] = shQuote a from rfl]
      rw [show shQuote a = shQuote a ++ [] from by simp]
      rw [unesc_shQuote]
      simp [unesc]
    | cons b args'' =>
      show unesc (shQuote a ++ ' ' :: shJoin (b :: args'')) [] false .norm =
        a :: b :: args''
      rw [unesc_shQuote]
      rw [show unesc (' ' :: shJoin (b :: args'')) ([] ++ a) true .norm =
          ([] ++ a) :: unesc (shJoin (b :: args'')) [] false .norm from by
        simp [unesc]]
      rw [IH]
      simp

/-- Claim C8: for a non-empty argument list whose first element does not
resolve on the search path, the launcher rewrites the arguments to
`[shell, -i, -c, q]` where `q` is the space-joined shell quoting of the
original arguments, and shell-unescaping `q` reconstructs the original
argument list exactly; when the first element does resolve, the argument
list is left unchanged. -/
theorem C8_command_resolution (shell : List Char) (args : List (List Char))
    ( _hne : args ≠ []) :
    resolveCommand true shell args = args ∧
    resolveCommand false shell args =
      [shell, cs "-i", cs "-c", shJoin args] ∧
    unescape (shJoin args) = args :=
  ⟨rfl, rfl, unescape_shJoin args⟩

/-- Claim C8, concrete instance: the alias-style command
`my alias --flag 1` (an empty argument included) survives the
quote-then-unescape round trip. -/
theorem C8_command_resolution_witness :
    ([cs "my alias", [], cs "--flag=1"] : List (List Char)) ≠ [] ∧
    (resolveCommand true (cs "/bin/zsh") [cs "my alias", [], cs "--flag=1"] =
        [cs "my alias", [], cs "--flag=1"] ∧
      resolveCommand false (cs "/bin/zsh") [cs "my alias", [], cs "--flag=1"] =
        [cs "/bin/zsh", cs "-i", cs "-c",
          shJoin [cs "my alias", [], cs "--flag=1"]] ∧
      unescape (shJoin [cs "my alias", [], cs "--flag=1"]) =
        [cs "my alias", [], cs "--flag=1"]) :=
  ⟨by decide,
    C8_command_resolution (cs "/bin/zsh") [cs "my alias", [], cs "--flag=1"]
      (by decide)⟩

end AgentSandbox
